import Mathlib

/-!
# Verification of the paper-model unfold-and-pack geometry engine

Shallow embedding of the core geometry code of the `paper_model_tool`
repository (files `source/util.py`, `source/edge.py`, `source/mesh.py`,
`source/uv.py`, `source/island.py`) together with theorems settling the
frozen claims about it.

Modelling conventions:
* 2D and 3D mesh coordinates are rationals (`ℚ`); quantities the Python code
  obtains from `math.sqrt`/`asin` (edge lengths, slopes, angles, fitted
  heights) live in `ℝ`.
* Python `dict`s become association lists with insertion-order semantics
  (`dget`/`dset`/`dupdate` below); Python sets become lists deduplicated in
  first-occurrence order.
* Python objects compared with `is` (UVVertex, UVEdge) are identified by a
  numeric id carried in the structure; uvedges are identified by their
  (globally unique) loop id.
* A Python function that can raise is embedded with `Option`/`Except`:
  `none`/`.error` marks the raising run.
-/

namespace PMT

/-- 2D point / vector with rational coordinates (a `mathutils.Vector` of size 2). -/
abbrev Vec2 := ℚ × ℚ

/-- 3D point / vector with rational coordinates. -/
abbrev Vec3 := ℚ × ℚ × ℚ

/-- 2D point / vector with real coordinates (used inside `cage_fit`). -/
abbrev RVec2 := ℝ × ℝ

/-- Lexicographic strict order on 2D points: Python tuple comparison `a.tup < b.tup`. -/
def tupLt (a b : Vec2) : Prop := a.1 < b.1 ∨ (a.1 = b.1 ∧ a.2 < b.2)

instance (a b : Vec2) : Decidable (tupLt a b) := by unfold tupLt; infer_instance

/-- Lexicographic weak order on 2D points: Python tuple comparison `a.tup <= b.tup`. -/
def tupLe (a b : Vec2) : Prop := tupLt a b ∨ a = b

instance (a b : Vec2) : Decidable (tupLe a b) := by unfold tupLe; infer_instance

/-- 2D cross product (`mathutils.Vector.cross` on 2D vectors returns a scalar). -/
def cross2 (a b : Vec2) : ℚ := a.1 * b.2 - a.2 * b.1

/-- Squared distance between two 2D points (`(a - b).length_squared`). -/
def dist2 (a b : Vec2) : ℚ := (a.1 - b.1) ^ 2 + (a.2 - b.2) ^ 2

/-- Squared length of a 3D vector. -/
def quad3 (v : Vec3) : ℚ := v.1 ^ 2 + v.2.1 ^ 2 + v.2.2 ^ 2

/-- Length of a 3D vector, e.g. `BMEdge.calc_length()` for the vector
between the edge's endpoints. -/
noncomputable def vlen3 (v : Vec3) : ℝ := Real.sqrt (quad3 v)

section Dicts

variable {κ β : Type _} [DecidableEq κ]

/-- Python `dict.get`: first binding of a key in an association list. -/
def dget : List (κ × β) → κ → Option β
  | [], _ => none
  | (k, v) :: t, key => if k = key then some v else dget t key

/-- Python `dict[key]` with a default supplied by the caller (where the source
code indexes a dict whose key is known to be present). -/
def dgetD (d : List (κ × β)) (key : κ) (dflt : β) : β := (dget d key).getD dflt

/-- Python `key in dict`. -/
def dhas (d : List (κ × β)) (key : κ) : Bool := (dget d key).isSome

/-- Python `dict[key] = value`: replace the binding in place, else append
(matches CPython insertion-order semantics). -/
def dset : List (κ × β) → κ → β → List (κ × β)
  | [], k, v => [(k, v)]
  | (k', v') :: t, k, v => if k' = k then (k, v) :: t else (k', v') :: dset t k v

/-- Python `dict.update(other)`. -/
def dupdate (d other : List (κ × β)) : List (κ × β) :=
  other.foldl (fun acc kv => dset acc kv.1 kv.2) d

/-- Update the value stored at a key, if present. -/
def dmodify (d : List (κ × β)) (key : κ) (f : β → β) : List (κ × β) :=
  match dget d key with
  | none => d
  | some v => dset d key (f v)

/-- Remove all bindings of a key (dict deletion / `set.remove` for id-keyed maps). -/
def derase (d : List (κ × β)) (key : κ) : List (κ × β) :=
  d.filter (fun kv => kv.1 ≠ key)

/-- Keys of a dict, in order. -/
def dkeys (d : List (κ × β)) : List κ := d.map Prod.fst

/-- Values of a dict, in order (`dict.values()`). -/
def dvalues (d : List (κ × β)) : List β := d.map Prod.snd

end Dicts

section DedupHelpers

variable {α : Type _} [DecidableEq α]

/-- Python `set(...)` built from an iterable, modelled as the list of elements
deduplicated in first-occurrence order. -/
def dedupFirst (l : List α) : List α :=
  l.foldl (fun acc a => if acc.contains a then acc else acc ++ [a]) []

/-- `itertools.combinations(l, 2)`: ordered pairs with the first element
strictly earlier in the list. -/
def combinations2 : List α → List (α × α)
  | [] => []
  | a :: t => t.map (fun b => (a, b)) ++ combinations2 t

/-- `itertools.product(xs, ys)` in row-major order. -/
def product2 (xs ys : List α) : List (α × α) :=
  xs.foldr (fun a acc => ys.map (fun b => (a, b)) ++ acc) []

end DedupHelpers

/-! ## `util.pairs` (source/util.py lines 27-34)

```python
def pairs(sequence):
    i = iter(sequence)
    previous = first = next(i)
    for this in i:
        yield previous, this
        previous = this
    yield this, first
```

A generator.  On the empty sequence the initial `next(i)` raises
`StopIteration`, which PEP 479 turns into a `RuntimeError`; on a one-element
sequence the trailing `yield this, first` raises `NameError` because the loop
variable `this` was never assigned.  Both failing runs are modelled as `none`.
-/

/-- Yields of the `for` loop of `pairs` plus the final `yield this, first`,
given the first element, the current `previous`, and the rest of the iterator.
Only called with a non-empty `rest` (so `this` is defined at the end). -/
def pairsYields {α : Type _} (first : α) : α → List α → List (α × α)
  | _, [] => []
  | prev, [t] => [(prev, t), (t, first)]
  | prev, t :: r => (prev, t) :: pairsYields first t r

/-- `util.pairs`, run to completion.  `none` models a raising run (empty or
one-element input). -/
def pairs {α : Type _} : List α → Option (List (α × α))
  | [] => none
  | [_] => none
  | first :: rest => some (pairsYields first first rest)

/-! ## 2D matrices and `edge.fitting_matrix` (source/edge.py lines 9-13) -/

/-- Squared length of a 2D vector (`Vector.length_squared`). -/
def len2 (v : Vec2) : ℚ := v.1 ^ 2 + v.2 ^ 2

/-- 2×2 rational matrix, stored as its two rows. -/
abbrev Mat2 := Vec2 × Vec2

/-- Matrix-vector product `m @ v`. -/
def mul2 (m : Mat2) (v : Vec2) : Vec2 :=
  (m.1.1 * v.1 + m.1.2 * v.2, m.2.1 * v.1 + m.2.2 * v.2)

/-- Matrix-matrix product `a @ b`. -/
def matMul (a b : Mat2) : Mat2 :=
  ((a.1.1 * b.1.1 + a.1.2 * b.2.1, a.1.1 * b.1.2 + a.1.2 * b.2.2),
   (a.2.1 * b.1.1 + a.2.2 * b.2.1, a.2.1 * b.1.2 + a.2.2 * b.2.2))

/-- Scalar multiple of a matrix. -/
def smulM (c : ℚ) (m : Mat2) : Mat2 :=
  ((c * m.1.1, c * m.1.2), (c * m.2.1, c * m.2.2))

/-- `edge.fitting_matrix(v1, v2)`: the matrix rotating (and possibly scaling)
`v1` onto `v2`. -/
def fitting_matrix (v1 v2 : Vec2) : Mat2 :=
  smulM (1 / len2 v1)
    ((v1.1 * v2.1 + v1.2 * v2.2, v1.2 * v2.1 - v1.1 * v2.2),
     (v1.1 * v2.2 - v1.2 * v2.1, v1.1 * v2.1 + v1.2 * v2.2))

/-- The reflection matrix `flip` of `join_island` (source/edge.py line 147). -/
def flipM : Mat2 := ((-1, 0), (0, 1))

/-- The rotation/translation computed by `join_island` (source/edge.py lines
144-149) from the endpoints `first_b`, `second_b` of edge B and `va`, `vb`
of edge A:

```python
if not flipped:
    rot = fitting_matrix(first_b.co - second_b.co, uvedge_a.vb.co - uvedge_a.va.co)
else:
    flip = mu.Matrix(((-1, 0), (0, 1)))
    rot = fitting_matrix(flip @ (first_b.co - second_b.co), uvedge_a.vb.co - uvedge_a.va.co) @ flip
trans = uvedge_a.vb.co - rot @ first_b.co
```
-/
def joinRotTrans (flipped : Bool) (firstB secondB vaA vbA : Vec2) : Mat2 × Vec2 :=
  let rot :=
    if flipped then
      matMul (fitting_matrix (mul2 flipM (firstB - secondB)) (vbA - vaA)) flipM
    else fitting_matrix (firstB - secondB) (vbA - vaA)
  (rot, vbA - mul2 rot firstB)

/-! ## UVVertex and the union-find over phantom vertices -/

/-- `uv.UVVertex`: a 2D vertex object.  `id` models Python object identity
(`is` comparisons, dict keys); `co` is the position, and the Python `tup`
field is the same data as `co` under the lexicographic tuple order. -/
structure UVV where
  id : ℕ
  co : Vec2
deriving DecidableEq

instance : Inhabited UVV := ⟨⟨0, (0, 0)⟩⟩

/-- Chain-following loop of `join_island.root_find` collecting the visited
keys for path compression.  The fuel bounds the walk; a forest never needs
more than `tree.length` steps (a cyclic dict would loop forever in Python). -/
def rootFindGo {α : Type _} [DecidableEq α] (tree : List (α × α)) :
    ℕ → α → List α → α × List α
  | 0, value, relink => (value, relink)
  | fuel + 1, value, relink =>
    match dget tree value with
    | none => (value, relink)
    | some parent => rootFindGo tree fuel parent (relink ++ [value])

/-- `join_island.root_find(value, tree)` (source/edge.py lines 115-123):
returns the root and the path-compressed tree. -/
def root_find {α : Type _} [DecidableEq α] (value : α) (tree : List (α × α)) :
    α × List (α × α) :=
  let rr := rootFindGo tree (tree.length + 1) value []
  (rr.1, rr.2.foldl (fun t v => dset t v rr.1) tree)

/-- `BMEdge.calc_length()` for an edge with 3D endpoints `va`, `vb`. -/
noncomputable def calc_length (va vb : Vec3) : ℝ := vlen3 (vb - va)

/-- One step of the phantom/absorber vertex coalescing loop of `join_island`
(source/edge.py lines 179-181):

```python
for a, b in itt.product(uvs_a, uvs_b):
    if (a.co - phantoms[b].co).length_squared < distance_limit:
        phantoms[b] = root_find(a, phantoms)
```

with `distance_limit = uvedge_a.loop.edge.calc_length() * epsilon`
(line 166).  `a` is a vertex of the absorbing island, `b` a vertex of the
absorbed island (a key of `phantoms`). -/
noncomputable def coalescePairStep (distance_limit : ℝ)
    (phantoms : List (UVV × UVV)) (a b : UVV) : List (UVV × UVV) :=
  if ((dist2 a.co (dgetD phantoms b b).co : ℚ) : ℝ) < distance_limit then
    let rt := root_find a phantoms
    dset rt.2 b rt.1
  else phantoms

/-! ## `Edge.calculate_angle` (source/edge.py lines 327-338) -/

/-- 3D cross product. -/
def cross3 (a b : Vec3) : Vec3 :=
  (a.2.1 * b.2.2 - a.2.2 * b.2.1,
   a.2.2 * b.1 - a.1 * b.2.2,
   a.1 * b.2.1 - a.2.1 * b.1)

/-- Dot product of a rational vector with a real vector. -/
def dot3R (a : Vec3) (b : ℝ × ℝ × ℝ) : ℝ :=
  (a.1 : ℝ) * b.1 + (a.2.1 : ℝ) * b.2.1 + (a.2.2 : ℝ) * b.2.2

/-- `Vector.normalized()`: mathutils returns the zero vector unchanged. -/
noncomputable def normalized3 (v : Vec3) : ℝ × ℝ × ℝ :=
  if quad3 v = 0 then (0, 0, 0)
  else ((v.1 : ℝ) / vlen3 v, (v.2.1 : ℝ) / vlen3 v, (v.2.2 : ℝ) / vlen3 v)

/-- `Edge.calculate_angle`:

```python
loop_a, loop_b = self.main_faces
normal_a, normal_b = (l.face.normal for l in self.main_faces)
if not normal_a or not normal_b:
    self.angle = -3  # just a very sharp angle
else:
    s = normal_a.cross(normal_b).dot(self.vector.normalized())
    s = max(min(s, 1.0), -1.0)
    self.angle = math.asin(s)
    if loop_a.link_loop_next.vert != loop_b.vert or loop_b.link_loop_next.vert != loop_a.vert:
        self.angle = abs(self.angle)
```

The mesh data entering the winding test is passed as the vertex ids
`laNextVert = loop_a.link_loop_next.vert`, `lbVert = loop_b.vert`,
`lbNextVert = loop_b.link_loop_next.vert`, `laVert = loop_a.vert`.
A `mathutils` zero vector is falsy, hence `not normal_a` tests for the null
normal of a degenerate face. -/
noncomputable def calculate_angle (normal_a normal_b vector : Vec3)
    (laNextVert lbVert lbNextVert laVert : ℕ) : ℝ :=
  if normal_a = 0 ∨ normal_b = 0 then -3
  else
    let s0 := dot3R (cross3 normal_a normal_b) (normalized3 vector)
    let s := max (min s0 1) (-1)
    let ang := Real.arcsin s
    if laNextVert ≠ lbVert ∨ lbNextVert ≠ laVert then |ang| else ang

/-! ## `util.cage_fit` (source/util.py lines 73-106)

The call `mathutils.geometry.convex_hull_2d(points)` is external library
code; its result (a list of indices into `points`) is passed to `cage_fit`
as the explicit argument `hull`. -/

section RealGeometry

open scoped Classical

/-- Lexicographic strict order on pairs of reals (Python tuple `<`). -/
def lexLtR (a b : ℝ × ℝ) : Prop := a.1 < b.1 ∨ (a.1 = b.1 ∧ a.2 < b.2)

/-- Lexicographic strict order on candidate triples `(height, sinx, cosx)`
(Python tuple `<` as used by `min(guesses(polygon))`). -/
def lexLtC (c d : ℝ × ℝ × ℝ) : Prop :=
  c.1 < d.1 ∨ (c.1 = d.1 ∧ (c.2.1 < d.2.1 ∨ (c.2.1 = d.2.1 ∧ c.2.2 < d.2.2)))

/-- Python `min(list, key=...)`: the first element with the least key.
`min` on an empty list raises; the default is never reached in `cage_fit`
because the polygon there is non-empty. -/
noncomputable def argminByR (key : RVec2 → ℝ × ℝ) : List RVec2 → RVec2
  | [] => (0, 0)
  | p :: ps => ps.foldl (fun m q => if lexLtR (key q) (key m) then q else m) p

/-- Python `max(list, key=...)`: the first element with the greatest key. -/
noncomputable def argmaxByR (key : RVec2 → ℝ × ℝ) : List RVec2 → RVec2
  | [] => (0, 0)
  | p :: ps => ps.foldl (fun m q => if lexLtR (key m) (key q) then q else m) p

/-- 2×2 real matrix (rows). -/
abbrev RMat2 := RVec2 × RVec2

/-- Real matrix-vector product. -/
def rmul2 (m : RMat2) (v : RVec2) : RVec2 :=
  (m.1.1 * v.1 + m.1.2 * v.2, m.2.1 * v.1 + m.2.2 * v.2)

/-- `Vector.normalized()` for a 2D vector. -/
noncomputable def rnormalized (v : RVec2) : RVec2 :=
  if v = 0 then 0
  else (v.1 / Real.sqrt (v.1 ^ 2 + v.2 ^ 2), v.2 / Real.sqrt (v.1 ^ 2 + v.2 ^ 2))

/-- `math.atan2 (y, x)`. -/
noncomputable def atan2R (y x : ℝ) : ℝ :=
  if 0 < x then Real.arctan (y / x)
  else if x < 0 then
    (if 0 ≤ y then Real.arctan (y / x) + Real.pi else Real.arctan (y / x) - Real.pi)
  else (if 0 < y then Real.pi / 2 else if y < 0 then -(Real.pi / 2) else 0)

/-- The candidates produced by one iteration of the loop of
`cage_fit.guesses` for a consecutive polygon pair `(a, b)`:

```python
for a, b in pairs(polygon):
    if a == b:
        continue
    direction = (b - a).normalized()
    sinx, cosx = -direction.y, direction.x
    rot = mu.Matrix(((cosx, -sinx), (sinx, cosx)))
    rot_polygon = [rot @ p for p in polygon]
    left, right = [fn(rot_polygon, key=lambda p: p.to_tuple()) for fn in (min, max)]
    bottom, top = [fn(rot_polygon, key=lambda p: p.yx.to_tuple()) for fn in (min, max)]
    horz, vert = right - left, top - bottom
    yield max(aspect * horz.x, vert.y), sinx, cosx
    yield max(horz.x, aspect * vert.y), -cosx, sinx
    q = aspect * horz.x - vert.y
    r = vert.x + aspect * horz.y
    t = ((r**2 + q**2)**0.5 - r) / q if q != 0 else 0
    t = -1 / t if abs(t) > 1 else t
    siny, cosy = 2 * t / (1 + t**2), (1 - t**2) / (1 + t**2)
    rot = mu.Matrix(((cosy, -siny), (siny, cosy)))
    for p in rot_polygon:
        p[:] = rot @ p  # also updates left, right, bottom, top (aliases)
    if left.x < right.x and bottom.y < top.y and all(...inside...):
        yield max(aspect * (right - left).x, (top - bottom).y), sinx*cosy + cosx*siny, cosx*cosy - sinx*siny
```
-/
noncomputable def guessesFor (aspect : ℝ) (polygon : List RVec2)
    (ab : RVec2 × RVec2) : List (ℝ × ℝ × ℝ) :=
  if ab.1 = ab.2 then []
  else
    let d := rnormalized (ab.2 - ab.1)
    let sinx := -d.2
    let cosx := d.1
    let rot : RMat2 := ((cosx, -sinx), (sinx, cosx))
    let rp := polygon.map (rmul2 rot)
    let left := argminByR (fun p => (p.1, p.2)) rp
    let right := argmaxByR (fun p => (p.1, p.2)) rp
    let bottom := argminByR (fun p => (p.2, p.1)) rp
    let top := argmaxByR (fun p => (p.2, p.1)) rp
    let horz := right - left
    let vert := top - bottom
    let c1 := (max (aspect * horz.1) vert.2, sinx, cosx)
    let c2 := (max horz.1 (aspect * vert.2), -cosx, sinx)
    let q := aspect * horz.1 - vert.2
    let r := vert.1 + aspect * horz.2
    let t0 := if q ≠ 0 then (Real.sqrt (r ^ 2 + q ^ 2) - r) / q else 0
    let t := if |t0| > 1 then -1 / t0 else t0
    let siny := 2 * t / (1 + t ^ 2)
    let cosy := (1 - t ^ 2) / (1 + t ^ 2)
    let rot2 : RMat2 := ((cosy, -siny), (siny, cosy))
    let rp2 := rp.map (rmul2 rot2)
    let left2 := rmul2 rot2 left
    let right2 := rmul2 rot2 right
    let bottom2 := rmul2 rot2 bottom
    let top2 := rmul2 rot2 top
    [c1, c2] ++
      (if left2.1 < right2.1 ∧ bottom2.2 < top2.2 ∧
          (∀ p ∈ rp2, left2.1 ≤ p.1 ∧ p.1 ≤ right2.1 ∧ bottom2.2 ≤ p.2 ∧ p.2 ≤ top2.2)
       then [(max (aspect * (right2 - left2).1) ((top2 - bottom2).2),
              sinx * cosy + cosx * siny, cosx * cosy - sinx * siny)]
       else [])

/-- `polygon = [points[i] for i in mu.geometry.convex_hull_2d(points)]`
(source/util.py line 104); the hull index list is the external library
result.  A real hull result only contains valid indices. -/
def polygonOf (hull : List ℕ) (points : List RVec2) : List RVec2 :=
  hull.map (fun i => (points.get? i).getD (0, 0))

/-- Python `min` over the candidate stream, starting from the first
candidate and replacing the current best on strict lexicographic decrease. -/
noncomputable def lexMinFold (c : ℝ × ℝ × ℝ) (cs : List (ℝ × ℝ × ℝ)) : ℝ × ℝ × ℝ :=
  cs.foldl (fun best cand => if lexLtC cand best then cand else best) c

/-- `util.cage_fit(points, aspect)` with the external `convex_hull_2d`
result passed in as `hull`.  `none` models a raising run: `pairs` raising
on a degenerate polygon, or `min()` raising `ValueError` on an empty
candidate stream. -/
noncomputable def cage_fit (hull : List ℕ) (points : List RVec2) (aspect : ℝ) :
    Option (ℝ × ℝ) :=
  let polygon := polygonOf hull points
  match pairs polygon with
  | none => none
  | some prs =>
    match prs.flatMap (guessesFor aspect polygon) with
    | [] => none
    | c :: cs =>
      let m := lexMinFold c cs
      some (atan2R m.2.1 m.2.2, m.1)

/-! ## The size check of `join_island` (source/edge.py lines 153-164) -/

/-- Width and height of the axis-aligned bounding box of `p :: ps`
(source/edge.py lines 156-158); `min`/`max` over all coordinates. -/
def bboxOf (p : Vec2) (ps : List Vec2) : ℚ × ℚ :=
  (ps.foldl (fun m q => max m q.1) p.1 - ps.foldl (fun m q => min m q.1) p.1,
   ps.foldl (fun m q => max m q.2) p.2 - ps.foldl (fun m q => min m q.2) p.2)

/-- Coerce rational 2D points to real points (for `cage_fit`). -/
def toR2 (v : Vec2) : RVec2 := ((v.1 : ℝ), (v.2 : ℝ))

/-- The body of the `if size_limit:` block of `join_island`
(source/edge.py lines 153-164):

```python
points = [vert.co for vert in itt.chain(island_a.vertices.values(), phantoms.values())]
left, right, bottom, top = (fn(co[i] for co in points) for i in (0, 1) for fn in (min, max))
bbox_width = right - left
bbox_height = top - bottom
if min(bbox_width, bbox_height)**2 > size_limit.x**2 + size_limit.y**2:
    return False
if (bbox_width > size_limit.x or bbox_height > size_limit.y) and (bbox_height > size_limit.x or bbox_width > size_limit.y):
    _, height = pmt_util.cage_fit(points, size_limit.y / size_limit.x)
    if height > size_limit.y:
        return False
```

`some false` = the join is rejected, `some true` = the size check passes,
`none` = an exception escapes (`min`/`cage_fit` raising on degenerate
input).  `hullFn` models `mathutils.geometry.convex_hull_2d`. -/
noncomputable def size_check (hullFn : List RVec2 → List ℕ)
    (points : List Vec2) (limit : Vec2) : Option Bool :=
  match points with
  | [] => none
  | p :: ps =>
    let wh := bboxOf p ps
    if (min wh.1 wh.2) ^ 2 > limit.1 ^ 2 + limit.2 ^ 2 then some false
    else if (wh.1 > limit.1 ∨ wh.2 > limit.2) ∧ (wh.2 > limit.1 ∨ wh.1 > limit.2) then
      let ptsR := (p :: ps).map toR2
      match cage_fit (hullFn ptsR) ptsR ((limit.2 : ℝ) / (limit.1 : ℝ)) with
      | none => none
      | some ah => if ah.2 > (limit.2 : ℝ) then some false else some true
    else some true

/-- The size check as described by the claim/spec sentence: after the
diagonal pre-check, the bounding-box rotation fit is (always) run on the
combined point set and the join is rejected if the resulting height exceeds
the limit's height.  This definition follows the claim's words and is to
be compared with `size_check`, which is the one translated from the
source. -/
noncomputable def size_check_claimed (hullFn : List RVec2 → List ℕ)
    (points : List Vec2) (limit : Vec2) : Option Bool :=
  match points with
  | [] => none
  | p :: ps =>
    let wh := bboxOf p ps
    if (min wh.1 wh.2) ^ 2 > limit.1 ^ 2 + limit.2 ^ 2 then some false
    else
      let ptsR := (p :: ps).map toR2
      match cage_fit (hullFn ptsR) ptsR ((limit.2 : ℝ) / (limit.1 : ℝ)) with
      | none => none
      | some ah => if ah.2 > (limit.2 : ℝ) then some false else some true

end RealGeometry

/-- A concrete stand-in for `mathutils.geometry.convex_hull_2d` on the
degenerate inputs used in counterexamples (any return value leads to the
same raising behavior there). -/
def hullHead : List RVec2 → List ℕ := fun _ => [0]

/-! ## The sweepline intersection test of `join_island`
(source/edge.py lines 22-113)

Exceptions raised by the comparator and the sweep are modelled with
`Except`. -/

/-- The two internal exception classes of `join_island`:
`GeometryError` (fast path ambiguity) and `Intersection`. -/
inductive SweepErr where
  | geometry
  | intersection
deriving DecidableEq

/-- A 2D segment fed to the sweepline: either a real `UVEdge` (carrying its
owning uvface's `flipped` flag) or a transient `PhantomUVEdge`
(source/uv.py lines 65-79, endpoints already swapped by its `flip`
argument).  The `loop` id models Python object identity: every UVEdge is
identified by its globally unique loop, and every PhantomUVEdge by the
boundary uvedge it was built from. -/
inductive Seg where
  | real (loop : ℕ) (va vb : UVV) (flipped : Bool)
  | phant (loop : ℕ) (va vb : UVV)
deriving DecidableEq

instance : Inhabited Seg := ⟨.phant 0 default default⟩

/-- First endpoint (for a phantom: after the `flip` swap). -/
def Seg.va : Seg → UVV
  | .real _ va _ _ => va
  | .phant _ va _ => va

/-- Second endpoint. -/
def Seg.vb : Seg → UVV
  | .real _ _ vb _ => vb
  | .phant _ _ vb => vb

/-- `type(right) is not type(left)` distinguishes `UVEdge` from
`PhantomUVEdge`. -/
def Seg.isPhantom : Seg → Bool
  | .real _ _ _ _ => false
  | .phant _ _ _ => true

/-- `is_uvface_upwards()`: for a `UVEdge`, `(va.tup < vb.tup) ^
uvface.flipped` (source/uv.py line 59); for a `PhantomUVEdge`, just
`va.tup < vb.tup` (line 76). -/
def Seg.upwards : Seg → Bool
  | .real _ va vb flipped => xor (decide (tupLt va.co vb.co)) flipped
  | .phant _ va vb => decide (tupLt va.co vb.co)

/-- `self.min`: `(va, vb) if va.tup < vb.tup else (vb, va)` (source/uv.py
lines 54, 71). -/
def Seg.minV (s : Seg) : UVV := if tupLt s.va.co s.vb.co then s.va else s.vb

/-- `self.max`. -/
def Seg.maxV (s : Seg) : UVV := if tupLt s.va.co s.vb.co then s.vb else s.va

/-- `(bottom, top)`: `(y1, y2) if y1 < y2 else (y2, y1)` (source/uv.py
lines 56, 73). -/
def Seg.bottomTop (s : Seg) : ℚ × ℚ :=
  if s.va.co.2 < s.vb.co.2 then (s.va.co.2, s.vb.co.2) else (s.vb.co.2, s.va.co.2)

/-- `join_island.is_below(self, other, correct_geometry=True)`
(source/edge.py lines 28-66), the sweepline comparator.  `self is other`
is object identity, modelled by equality of the id-carrying segments. -/
def is_below (self other : Seg) (correct_geometry : Bool) : Except SweepErr Bool := do
  if self = other then
    return false
  if (Seg.bottomTop self).2 < (Seg.bottomTop other).1 then
    return true
  if (Seg.bottomTop other).2 < (Seg.bottomTop self).1 then
    return false
  if tupLe (Seg.maxV self).co (Seg.minV other).co then
    return true
  if tupLe (Seg.maxV other).co (Seg.minV self).co then
    return false
  let self_vector := (Seg.maxV self).co - (Seg.minV self).co
  let min_to_min := (Seg.minV other).co - (Seg.minV self).co
  let cb1 := cross2 self_vector min_to_min
  let cb2 := cross2 self_vector ((Seg.maxV other).co - (Seg.minV self).co)
  let cross_b1 := if cb2 < cb1 then cb2 else cb1
  let cross_b2 := if cb2 < cb1 then cb1 else cb2
  if cross_b2 > 0 ∧ (cross_b1 > 0 ∨ (cross_b1 = 0 ∧ Seg.upwards self = false)) then
    return true
  if cross_b1 < 0 ∧ (cross_b2 < 0 ∨ (cross_b2 = 0 ∧ Seg.upwards self = true)) then
    return false
  let other_vector := (Seg.maxV other).co - (Seg.minV other).co
  let ca1 := cross2 other_vector (-min_to_min)
  let ca2 := cross2 other_vector ((Seg.maxV self).co - (Seg.minV other).co)
  let cross_a1 := if ca2 < ca1 then ca2 else ca1
  let cross_a2 := if ca2 < ca1 then ca1 else ca2
  if cross_a2 > 0 ∧ (cross_a1 > 0 ∨ (cross_a1 = 0 ∧ Seg.upwards other = false)) then
    return false
  if cross_a1 < 0 ∧ (cross_a2 < 0 ∨ (cross_a2 = 0 ∧ Seg.upwards other = true)) then
    return true
  if cross_a1 = cross_b1 ∧ cross_b1 = cross_a2 ∧ cross_a2 = cross_b2 ∧ cross_b2 = 0 then
    if correct_geometry then
      throw .geometry
    else if Seg.upwards self = Seg.upwards other then
      throw .intersection
    else
      return false
  if (Seg.minV self).co = (Seg.minV other).co ∨ (Seg.maxV self).co = (Seg.maxV other).co then
    return (cross_a2 > cross_b2)
  throw .intersection

/-- The binary-search loop of `QuickSweepline.add` (source/edge.py lines
74-80): the comparator may raise. -/
def bsearchLow (children : List Seg) (item : Seg) (low high : ℕ) :
    Except SweepErr ℕ :=
  if h : low < high then do
    let mid := (low + high) / 2
    let b ← is_below (children.getD mid default) item true
    if b then bsearchLow children item (mid + 1) high
    else bsearchLow children item low mid
  else pure low
termination_by high - low
decreasing_by
  · omega
  · omega

/-- `self.children.insert(low, item)`. -/
def linsertAt (n : ℕ) (a : Seg) (l : List Seg) : List Seg :=
  l.take n ++ a :: l.drop n

/-- The two sweepline flavors: `QuickSweepline` keeps a sorted list,
`BruteSweepline` keeps a set (modelled as a list in insertion order; the
only observable of the brute sweep is which exception, if any, escapes,
and that does not depend on the iteration order of the set). -/
inductive Sweepline where
  | quick (children : List Seg)
  | brute (children : List Seg)

/-- The pairwise checks of `BruteSweepline.add` (source/edge.py lines
96-99): `child.min is not item.min and child.max is not item.max` are
identity tests on UVVertex objects. -/
def bruteCheck : List Seg → Seg → Except SweepErr Unit
  | [], _ => pure ()
  | child :: t, item => do
    if Seg.minV child ≠ Seg.minV item ∧ Seg.maxV child ≠ Seg.maxV item then
      let _ ← is_below item child false
      bruteCheck t item
    else
      bruteCheck t item

/-- `sweepline.add(item)`. -/
def slAdd (sl : Sweepline) (item : Seg) : Except SweepErr Sweepline :=
  match sl with
  | .quick children => do
    let low ← bsearchLow children item 0 children.length
    pure (.quick (linsertAt low item children))
  | .brute children => do
    let _ ← bruteCheck children item
    pure (.brute (children ++ [item]))

/-- `sweepline.remove(item)` (source/edge.py lines 83-89 and 102-103):
the quick variant checks the two segments that become neighbors. -/
def slRemove (sl : Sweepline) (item : Seg) : Except SweepErr Sweepline :=
  match sl with
  | .quick children => do
    let index := children.findIdx (fun s => s == item)
    let c2 := children.eraseIdx index
    if index > 0 ∧ index < c2.length then do
      let b ← is_below (c2.getD index default) (c2.getD (index - 1) default) true
      if b then throw .geometry else pure (.quick c2)
    else
      pure (.quick c2)
  | .brute children => pure (.brute (children.erase item))

/-- The inner `while events_add and events_add[-1].min.tup <=
events_remove[-1].max.tup` loop of `sweep` (source/edge.py line 111);
popping from the end of the Python list is consuming the head of the
reversed list. -/
def addPhase : Sweepline → Vec2 → List Seg → Except SweepErr (Sweepline × List Seg)
  | sl, _, [] => pure (sl, [])
  | sl, bound, a :: rest =>
    if tupLe (Seg.minV a).co bound then do
      let sl2 ← slAdd sl a
      addPhase sl2 bound rest
    else
      pure (sl, a :: rest)

/-- The outer `while events_remove:` loop of `sweep`. -/
def sweepLoop : Sweepline → List Seg → List Seg → Except SweepErr Unit
  | _, _, [] => pure ()
  | sl, adds, r :: rs => do
    let sr ← addPhase sl (Seg.maxV r).co adds
    let sl3 ← slRemove sr.1 r
    sweepLoop sl3 sr.2 rs

/-- `join_island.sweep(sweepline, segments)` (source/edge.py lines
105-113): events sorted descending (stable) by the `min`/`max` tuple keys;
Python's stable sort is modelled by a stable insertion sort. -/
def sweepRun (useQuick : Bool) (segments : List Seg) : Except SweepErr Unit :=
  let ea := List.insertionSort (fun a b : Seg => tupLe (Seg.minV b).co (Seg.minV a).co) segments
  let er := List.insertionSort (fun a b : Seg => tupLe (Seg.maxV b).co (Seg.maxV a).co) ea
  sweepLoop (if useQuick then .quick [] else .brute []) ea.reverse er.reverse

/-- Outcome of the nested try/except around the sweeps (source/edge.py
lines 234-244): `reject` = `except Intersection: return False`; `safe b` =
success with the new `island_a.has_safe_geometry` value; `fatal` = an
exception no handler catches (unreachable: the brute sweep never raises
`GeometryError`). -/
inductive SweepOut where
  | reject
  | safe (b : Bool)
  | fatal

/-- The sweep phase of `join_island`: quick sweep if both islands have safe
geometry, falling back to the brute sweep on `GeometryError` (which also
clears the safe-geometry flag); on plain success the flag becomes the
conjunction of both islands' flags. -/
def sweepPhase (safeA safeB : Bool) (segs : List Seg) : SweepOut :=
  match (if safeA && safeB then sweepRun true segs else sweepRun false segs) with
  | .ok _ => .safe (safeA && safeB)
  | .error .intersection => .reject
  | .error .geometry =>
    match sweepRun false segs with
    | .ok _ => .safe false
    | .error .intersection => .reject
    | .error .geometry => .fatal

/-! ## The island data model

Python objects are shared: `island.boundary` holds references to the very
`UVEdge` objects of `island.edges`, and after a join both islands' edge
dicts reference the same objects.  This aliasing is modelled by global
object stores keyed by the unique loop/face ids; islands hold key lists.
`UVVertex` objects are immutable during a join and are kept inline. -/

/-- `uv.UVEdge`: endpoints, owning uvface (face id), source loop.  The
cached `min/max/bottom/top` of the Python object are recomputed by
`update()` whenever the endpoints change and are derived here
(`Seg.minV` etc.). -/
structure UVEdge where
  va : UVV
  vb : UVV
  uvface : ℕ
  loop : ℕ
deriving DecidableEq

instance : Inhabited UVEdge := ⟨⟨default, default, 0, 0⟩⟩

/-- `uv.UVFace`: source face, owning island, winding flag, loop→vertex
map. -/
structure UVFace where
  face : ℕ
  island : ℕ
  flipped : Bool
  vertices : List (ℕ × UVV)
deriving DecidableEq

instance : Inhabited UVFace := ⟨⟨0, 0, false, []⟩⟩

/-- `island.Island` (the parts touched by the join engine): key lists into
the global stores plus the island's own loop→vertex dict and boundary
list. -/
structure Island where
  faces : List ℕ
  edges : List ℕ
  vertices : List (ℕ × UVV)
  boundary : List ℕ
  hasSafeGeometry : Bool
deriving DecidableEq

instance : Inhabited Island := ⟨⟨[], [], [], [], true⟩⟩

/-- `edge.Edge` (the mesh-edge wrapper): the fields read or written by the
join engine and the cut-tree builder. -/
structure MEdge where
  isMainCut : Bool
  mainFaces : Option (ℕ × ℕ)
  forceCut : Bool
  vector : Vec3
  angle : ℝ
  priority : ℝ

instance : Inhabited MEdge := ⟨⟨true, none, false, 0, 0, 0⟩⟩

/-- The shared mutable state the join engine operates on: the islands (by
id), the uvedge/uvface object stores, the mesh-edge wrappers, and the
supply of fresh UVVertex ids. -/
structure MState where
  islands : List (ℕ × Island)
  uvedges : List (ℕ × UVEdge)
  uvfaces : List (ℕ × UVFace)
  meshEdges : List (ℕ × MEdge)
  nextV : ℕ

/-- The read-only BMesh topology consumed by the join engine:
`loop.vert`, `loop.edge`, `loop.link_loops` (radial loops of the same
edge), `vertex.link_loops`, and `edge.calc_length()`. -/
structure Topo where
  loopVert : ℕ → ℕ
  loopEdge : ℕ → ℕ
  linkLoops : ℕ → List ℕ
  vertLinkLoops : ℕ → List ℕ
  edgeLen : ℕ → ℝ

/-- Dereference a uvedge object (`island.edges[loop]` / the shared
store). -/
def uvedgeOf (st : MState) (l : ℕ) : UVEdge := dgetD st.uvedges l default

/-- Dereference a uvface object. -/
def uvfaceOf (st : MState) (f : ℕ) : UVFace := dgetD st.uvfaces f default

/-- Dereference an island by id. -/
def islandOf (st : MState) (i : ℕ) : Island := dgetD st.islands i default

/-- A boundary `UVEdge` as a sweep segment. -/
def realSeg (st : MState) (l : ℕ) : Seg :=
  let e := uvedgeOf st l
  .real l e.va e.vb (uvfaceOf st e.uvface).flipped

/-- `PhantomUVEdge(v1, v2, flip)` (source/uv.py lines 69-73): swaps the
endpoints when `flip` is set; tagged by the source boundary loop for
identity. -/
def phantomSeg (l : ℕ) (v1 v2 : UVV) (flip : Bool) : Seg :=
  if flip then .phant l v2 v1 else .phant l v1 v2

/-! ## The preview and coalescing phases of `join_island` -/

/-- `phantoms = {uvvertex: UVVertex(rot @ uvvertex.co + trans) for uvvertex
in island_b.vertices.values()}` (source/edge.py line 151): fresh UVVertex
objects (fresh ids drawn from the state's counter). -/
def mkPhantoms (start : ℕ) (rot : Mat2) (trans : Vec2)
    (bverts : List (ℕ × UVV)) : List (UVV × UVV) × ℕ :=
  (dvalues bverts).foldl
    (fun acc v => (dset acc.1 v ⟨acc.2, mul2 rot v.co + trans⟩, acc.2 + 1))
    ([], start)

/-- The body of `for vertex in shared_vertices:` (source/edge.py lines
176-190): the phantom/absorber merges, the same-island merges (tracking
`is_merged_mine`), and the normalization pass over all entries.  Python
set iteration order is modelled as first-occurrence order; only the
union-find content, not the entry order, is observable downstream. -/
noncomputable def coalesceVertexStep (topo : Topo) (limit : ℝ)
    (islandA islandB : Island) (acc : List (UVV × UVV) × Bool) (vertex : ℕ) :
    List (UVV × UVV) × Bool :=
  let uvs_a := dedupFirst ((topo.vertLinkLoops vertex).filterMap (fun l => dget islandA.vertices l))
  let uvs_b := dedupFirst ((topo.vertLinkLoops vertex).filterMap (fun l => dget islandB.vertices l))
  let ph1 := (product2 uvs_a uvs_b).foldl
    (fun ph ab => coalescePairStep limit ph ab.1 ab.2) acc.1
  let pm2 := (combinations2 uvs_a).foldl
    (fun pm aa =>
      if ((dist2 aa.1.co aa.2.co : ℚ) : ℝ) < limit then
        let r1 := root_find aa.1 pm.1
        let r2 := root_find aa.2 r1.2
        if r1.1 ≠ r2.1 then (dset r2.2 r2.1 r1.1, true) else (r2.2, pm.2)
      else pm)
    (ph1, acc.2)
  let ph3 := (dkeys pm2.1).foldl
    (fun ph k =>
      let t := dgetD ph k k
      let r := root_find t ph
      dset r.2 k r.1) pm2.1
  (ph3, pm2.2)

/-- The whole coalescing loop (source/edge.py lines 174-190) over the set
of 3D vertices shared by the two islands' loops. -/
noncomputable def coalesceAll (topo : Topo) (limit : ℝ) (islandA islandB : Island)
    (ph0 : List (UVV × UVV)) : List (UVV × UVV) × Bool :=
  let shared := dedupFirst ((dkeys islandA.vertices ++ dkeys islandB.vertices).map topo.loopVert)
  shared.foldl (coalesceVertexStep topo limit islandA islandB) (ph0, false)

/-- The partner test of the merged-edge detection (source/edge.py lines
193-203) for a boundary uvedge `l` and a radial loop `l2`:
`island_b.edges.get(loop) or island_a.edges.get(loop)`, identity tests via
the union-find results. -/
def mergedCondition (st : MState) (flipped : Bool) (phantoms : List (UVV × UVV))
    (islandA islandB : Island) (l l2 : ℕ) : Bool :=
  if (islandB.edges.contains l2 || islandA.edges.contains l2) && (l2 != l) then
    let uvedge := uvedgeOf st l
    let partner := uvedgeOf st l2
    let pa0 := dgetD phantoms partner.vb partner.vb
    let pb0 := dgetD phantoms partner.va partner.va
    let swap := (xor (uvfaceOf st partner.uvface).flipped flipped) != (uvfaceOf st uvedge.uvface).flipped
    let paired_a := if swap then pb0 else pa0
    let paired_b := if swap then pa0 else pb0
    (dgetD phantoms uvedge.va uvedge.va == paired_a) &&
      (dgetD phantoms uvedge.vb uvedge.vb == paired_b)
  else false

/-- The merged-edge detection loop (source/edge.py lines 192-203): for each
boundary uvedge, the first radial partner that will coincide after the
transform; collects the merged set (as loop ids) and the ordered merged
pairs. -/
def findMerged (st : MState) (topo : Topo) (flipped : Bool)
    (phantoms : List (UVV × UVV)) (islandA islandB : Island)
    (boundaryIter : List ℕ) : List ℕ × List (ℕ × ℕ) :=
  boundaryIter.foldl
    (fun acc l =>
      match (topo.linkLoops l).find?
          (fun l2 => mergedCondition st flipped phantoms islandA islandB l l2) with
      | some l2 => (acc.1 ++ [l, l2], acc.2 ++ [(l, l2)])
      | none => acc)
    ([], [])

/-- Membership of a segment in `merged_uvedges` (a set of `UVEdge`
objects): phantom segments are never members. -/
def Seg.inMerged (s : Seg) (mergedLoops : List ℕ) : Bool :=
  match s with
  | .real l _ _ _ => mergedLoops.contains l
  | .phant _ _ _ => false

section FanCheck

open scoped Classical

/-- `join_island.slope_from(position)` (source/edge.py lines 125-129): the
angular sort key of a segment incident to `position`. -/
noncomputable def slopeKey (position : Vec2) (s : Seg) : ℝ :=
  let vec := if (Seg.va s).co = position then (Seg.vb s).co - (Seg.va s).co
             else (Seg.va s).co - (Seg.vb s).co
  if tupLt (0, 0) vec then
    ((vec.2 : ℝ) / Real.sqrt ((len2 vec : ℚ) : ℝ) + 1)
  else
    (-1 - (vec.2 : ℝ) / Real.sqrt ((len2 vec : ℚ) : ℝ))

/-- The fan-consistency test at one coalesced position (source/edge.py
lines 222-232): sort the incident segments by slope, walk the cyclic
consecutive pairs, succeed iff no pair violates either rule. -/
noncomputable def fanSiteOk (mergedLoops : List ℕ) (position : Vec2)
    (segments : List Seg) : Bool :=
  if segments.length ≤ 2 then true
  else
    let sorted := List.insertionSort
      (fun s t => slopeKey position s ≤ slopeKey position t) segments
    ((pairs sorted).getD []).all (fun rl =>
      let right := rl.1
      let left := rl.2
      let is_left_ccw := xor (Seg.upwards left) (decide ((Seg.maxV left).co = position))
      let is_right_ccw := xor (Seg.upwards right) (decide ((Seg.maxV right).co = position))
      let lM := Seg.inMerged left mergedLoops
      let rM := Seg.inMerged right mergedLoops
      let bad1 := is_right_ccw && !is_left_ccw && (Seg.isPhantom right != Seg.isPhantom left)
        && !rM && !lM
      let bad2 := xor (!is_right_ccw && !rM) (is_left_ccw && !lM)
      !bad1 && !bad2)

/-- The `incidence` keys (source/edge.py line 213): 2D positions shared by
a phantom vertex and an absorber vertex. -/
def incidenceKeys (phantoms : List (UVV × UVV)) (islandA : Island) : List Vec2 :=
  (dedupFirst ((dvalues phantoms).map UVV.co)).filter
    (fun t => ((dvalues islandA.vertices).map UVV.co).contains t)

/-- The segments incident to one position (source/edge.py lines 215-221),
skipping degenerate segments. -/
def siteSegments (allSegs : List Seg) (position : Vec2) : List Seg :=
  allSegs.filter (fun s =>
    (Seg.va s).co != (Seg.vb s).co &&
    ((Seg.va s).co == position || (Seg.vb s).co == position))

/-- All fan-consistency checks of `join_island` (source/edge.py lines
213-232); the join is rejected iff some site fails. -/
noncomputable def fanChecksOK (mergedLoops : List ℕ) (phantoms : List (UVV × UVV))
    (islandA : Island) (allSegs : List Seg) : Bool :=
  (incidenceKeys phantoms islandA).all
    (fun position => fanSiteOk mergedLoops position (siteSegments allSegs position))

end FanCheck

/-! ## `edge.join_island` (source/edge.py lines 16-285) -/

/-- Exceptions escaping `join_island`: `pmt` is the explicit
`PmtError("Export failed...")` raise (source/edge.py line 206); `fatal`
covers exceptions that no handler catches (an error inside `cage_fit` or
an unreachable `GeometryError` escaping the brute sweep). -/
inductive JoinErr where
  | pmt
  | fatal
deriving DecidableEq

section JoinIsland

open scoped Classical

/-- The commit phase of `join_island` (source/edge.py lines 246-283): mark
merged mesh edges as not cut, splice the absorbed island's vertex/edge/face
data (transformed through `phantoms`) into the absorber, rebuild the
boundary, and record the merged main faces.  Island B's own entry is left
in place (the caller removes it from the working set); its edge objects
are shared with island A through the store. -/
def joinCommit (topo : Topo) (st : MState) (iaId ibId : ℕ) (flipped : Bool)
    (phantoms : List (UVV × UVV)) (is_merged_mine : Bool)
    (mergedLoops : List ℕ) (mergedPairs : List (ℕ × ℕ))
    (newSafe : Bool) (nextV2 : ℕ) : MState :=
  let islandA := islandOf st iaId
  let islandB := islandOf st ibId
  let med1 := mergedLoops.foldl (fun me l =>
      dmodify me (topo.loopEdge l) (fun e => { e with isMainCut := false }))
    st.meshEdges
  let newAVerts := dupdate islandA.vertices
    (islandB.vertices.map (fun lv => (lv.1, dgetD phantoms lv.2 lv.2)))
  let uved1 := islandB.edges.foldl (fun ue l =>
      dmodify ue l (fun e =>
        { e with va := dgetD phantoms e.va e.va, vb := dgetD phantoms e.vb e.vb }))
    st.uvedges
  let uved2 := if is_merged_mine then
      islandA.edges.foldl (fun ue l =>
        dmodify ue l (fun e =>
          { e with va := dgetD phantoms e.va e.va, vb := dgetD phantoms e.vb e.vb }))
        uved1
    else uved1
  let newAEdges := islandA.edges ++ islandB.edges.filter
    (fun l => ¬ islandA.edges.contains l)
  let uvf1 := islandB.faces.foldl (fun uf f =>
      dmodify uf f (fun face =>
        { face with
          island := iaId
          vertices := face.vertices.map (fun lv => (lv.1, dgetD phantoms lv.2 lv.2))
          flipped := xor face.flipped flipped }))
    st.uvfaces
  let uvf2 := if is_merged_mine then
      islandA.faces.foldl (fun uf f =>
        dmodify uf f (fun face =>
          if face.vertices.any (fun lv => dhas phantoms lv.2) then
            { face with vertices :=
              face.vertices.map (fun lv => (lv.1, dgetD phantoms lv.2 lv.2)) }
          else face))
        uvf1
    else uvf1
  let newAFaces := islandA.faces ++ islandB.faces.filter
    (fun f => ¬ islandA.faces.contains f)
  let newABoundary := (islandA.boundary ++ islandB.boundary).filter
    (fun l => ¬ mergedLoops.contains l)
  let med2 := mergedPairs.foldl (fun me pr =>
      dmodify me (topo.loopEdge pr.1) (fun e => { e with mainFaces := some (pr.1, pr.2) }))
    med1
  let newIslandA : Island :=
    { faces := newAFaces, edges := newAEdges, vertices := newAVerts,
      boundary := newABoundary, hasSafeGeometry := newSafe }
  { islands := dset st.islands iaId newIslandA,
    uvedges := uved2, uvfaces := uvf2, meshEdges := med2, nextV := nextV2 }

/-- The local fan-validity check and the sweepline phase of `join_island`
(source/edge.py lines 208-285): builds `boundary_other` from the absorbed
island's still-exposed boundary (phantom positions), runs the incidence
checks, then the sweep, and commits on success. -/
noncomputable def joinPhase3 (topo : Topo) (st : MState) (iaId ibId : ℕ)
    (flipped : Bool) (phantoms : List (UVV × UVV)) (is_merged_mine : Bool)
    (mergedLoops : List ℕ) (mergedPairs : List (ℕ × ℕ)) (nextV2 : ℕ) :
    Except JoinErr (Option ℕ × MState) :=
  let islandA := islandOf st iaId
  let islandB := islandOf st ibId
  let boundary_other := islandB.boundary.filterMap (fun l =>
    if mergedLoops.contains l then none
    else
      let e := uvedgeOf st l
      some (phantomSeg l (dgetD phantoms e.va e.va) (dgetD phantoms e.vb e.vb)
        (xor flipped (uvfaceOf st e.uvface).flipped)))
  let allSegs := boundary_other ++ islandA.boundary.map (realSeg st)
  if ¬ fanChecksOK mergedLoops phantoms islandA allSegs then .ok (none, st)
  else
    match sweepPhase islandA.hasSafeGeometry islandB.hasSafeGeometry allSegs with
    | .fatal => .error .fatal
    | .reject => .ok (none, st)
    | .safe newSafe =>
      .ok (some ibId, joinCommit topo st iaId ibId flipped phantoms is_merged_mine
        mergedLoops mergedPairs newSafe nextV2)

/-- The coalescing and merged-edge detection phase of `join_island`
(source/edge.py lines 166-206), including the defensive
`PmtError` raise when the joined edge itself did not merge. -/
noncomputable def joinPhase2 (topo : Topo) (st : MState) (la lb iaId ibId : ℕ)
    (flipped : Bool) (phantoms0 : List (UVV × UVV)) (nextV2 : ℕ) (epsilon : ℝ) :
    Except JoinErr (Option ℕ × MState) :=
  let islandA := islandOf st iaId
  let islandB := islandOf st ibId
  let distance_limit := topo.edgeLen (topo.loopEdge la) * epsilon
  let cr := coalesceAll topo distance_limit islandA islandB phantoms0
  let boundaryIter := if cr.2 then islandA.boundary ++ islandB.boundary
                      else islandB.boundary
  let mr := findMerged st topo flipped cr.1 islandA islandB boundaryIter
  if ¬ mr.1.contains lb then .error .pmt
  else joinPhase3 topo st iaId ibId flipped cr.1 cr.2 mr.1 mr.2 nextV2

/-- `edge.join_island(uvedge_a, uvedge_b, size_limit, epsilon=1e-6)`:
attempt to join the islands owning the two uvedges (passed by their loop
ids `la0`, `lb0`).  Returns `ok (none, st)` for `return False` (rejected),
`ok (some islandBId, st2)` for a committed join returning the absorbed
island, and `error` for an escaping exception.  `hullFn` models the
external `mathutils.geometry.convex_hull_2d` used inside `cage_fit`.

Faithfulness notes: `if size_limit:` is false for `None` and for a zero
vector (mathutils falsy); the uvedge→island resolution follows
`uvedge.uvface.island`; the final `update()` on re-linked island-B uvedges
(source/edge.py line 257) is implicit because the `min/max/bottom/top`
caches are derived fields in this model (for island-A uvedges the Python
code skips `update()`, leaving caches stale by at most the merge
tolerance — a discrepancy only observable after a successful join). -/
noncomputable def join_island (topo : Topo) (hullFn : List RVec2 → List ℕ)
    (st : MState) (la0 lb0 : ℕ) (sizeLimit : Option Vec2) (epsilon : ℝ) :
    Except JoinErr (Option ℕ × MState) :=
  let iaId0 := (uvfaceOf st (uvedgeOf st la0).uvface).island
  let ibId0 := (uvfaceOf st (uvedgeOf st lb0).uvface).island
  if iaId0 = ibId0 then .ok (none, st)
  else
    let swap := (islandOf st ibId0).faces.length > (islandOf st iaId0).faces.length
    let la := if swap then lb0 else la0
    let lb := if swap then la0 else lb0
    let iaId := if swap then ibId0 else iaId0
    let ibId := if swap then iaId0 else ibId0
    let islandA := islandOf st iaId
    let islandB := islandOf st ibId
    let uvedgeA := uvedgeOf st la
    let uvedgeB := uvedgeOf st lb
    let verts_flipped := topo.loopVert lb = topo.loopVert la
    let flipped := xor (xor verts_flipped (uvfaceOf st uvedgeA.uvface).flipped)
      (uvfaceOf st uvedgeB.uvface).flipped
    let fstsnd := if ¬ verts_flipped then (uvedgeB.va, uvedgeB.vb) else (uvedgeB.vb, uvedgeB.va)
    let rt := joinRotTrans flipped fstsnd.1.co fstsnd.2.co uvedgeA.va.co uvedgeA.vb.co
    let phx := mkPhantoms st.nextV rt.1 rt.2 islandB.vertices
    let sizeOutcome : Option Bool :=
      match sizeLimit with
      | none => some true
      | some lim =>
        if lim = (0, 0) then some true
        else size_check hullFn ((dvalues islandA.vertices ++ dvalues phx.1).map UVV.co) lim
    match sizeOutcome with
    | none => .error .fatal
    | some false => .ok (none, st)
    | some true => joinPhase2 topo st la lb iaId ibId flipped phx.1 phx.2 epsilon

end JoinIsland

/-- A tiny concrete mesh state used by the `join_island` witness: one
island with two uvedges on two faces. -/
def wState : MState :=
  ⟨[(0, ⟨[3, 4], [7, 8], [], [7, 8], true⟩)],
   [(7, ⟨⟨0, (0, 0)⟩, ⟨1, (1, 0)⟩, 3, 7⟩), (8, ⟨⟨2, (1, 0)⟩, ⟨3, (0, 0)⟩, 4, 8⟩)],
   [(3, ⟨3, 0, false, []⟩), (4, ⟨4, 0, false, []⟩)],
   [], 10⟩

/-- A trivial topology for the witness. -/
def wTopo : Topo := ⟨fun _ => 0, fun _ => 0, fun _ => [], fun _ => [], fun _ => 0⟩

/-! ## The packing engine: `Mesh.fit_islands` (source/mesh.py lines 285-350)

An island enters the packing stage with a bounding box (`finalize_islands`)
and gets a page-relative position `pos`.  Only these data matter here;
`oid` models Python object identity (`island not in page.islands` compares
identities). -/

/-- An island as seen by the packing engine. -/
structure PIsland where
  oid : ℕ
  bbox : Vec2
  pos : Vec2
deriving DecidableEq

/-- The AABB obstacle test of `try_emplace` (source/mesh.py lines 301-304)
for a candidate placement of a box `b` at `(x, y)` against a placed island:

```python
if (x + bbox_x > obstacle.pos.x and
        obstacle.pos.x + obstacle.bounding_box.x > x and
        y + bbox_y > obstacle.pos.y and
        obstacle.pos.y + obstacle.bounding_box.y > y):
```
-/
def overlapsAt (x y : ℚ) (b : Vec2) (obs : PIsland) : Bool :=
  decide (x + b.1 > obs.pos.1 ∧ obs.pos.1 + obs.bbox.1 > x ∧
          y + b.2 > obs.pos.2 ∧ obs.pos.2 + obs.bbox.2 > y)

/-- The same AABB test between two placed islands (used to state the
no-overlap invariant). -/
def overlapPI (p q : PIsland) : Bool :=
  decide (p.pos.1 + p.bbox.1 > q.pos.1 ∧ q.pos.1 + q.bbox.1 > p.pos.1 ∧
          p.pos.2 + p.bbox.2 > q.pos.2 ∧ q.pos.2 + q.bbox.2 > p.pos.2)

/-- `for i, obstacle in enumerate(page_islands): if <overlap>: ... break`:
the first overlapping obstacle with its index. -/
def findObstacle (x y : ℚ) (b : Vec2) : List PIsland → ℕ → Option (ℕ × PIsland)
  | [], _ => none
  | o :: t, i => if overlapsAt x y b o then some (i, o) else findObstacle x y b t (i + 1)

/-- The self-reordering heuristic (source/mesh.py lines 308-310):
`page_islands[1:i+1] = page_islands[:i]; page_islands[0] = obstacle` moves
element `i` to the front. -/
def moveToFront (i : ℕ) (l : List PIsland) : List PIsland :=
  match l[i]? with
  | none => l
  | some o => o :: (l.take i ++ l.drop (i + 1))

/-- The inner `for y in stops_y` loop of `try_emplace`.  Returns the
accepted `y` (if any) together with the possibly reordered page list and
grown occupied cache. -/
def tryY (cage : Vec2) (isl : PIsland) (x : ℚ) :
    List ℚ → List PIsland → List (ℚ × ℚ) →
      Option ℚ × List PIsland × List (ℚ × ℚ)
  | [], page, occ => (none, page, occ)
  | y :: ys, page, occ =>
    if y + isl.bbox.2 > cage.2 ∨ occ.contains (x, y) then
      tryY cage isl x ys page occ
    else
      match findObstacle x y isl.bbox page 0 with
      | some io =>
          let occ2 := if x ≥ io.2.pos.1 ∧ y ≥ io.2.pos.2 then occ ++ [(x, y)] else occ
          tryY cage isl x ys (moveToFront io.1 page) occ2
      | none => (some y, page, occ)

/-- The outer `for x in stops_x` loop of `try_emplace`. -/
def tryX (cage : Vec2) (isl : PIsland) (stopsY : List ℚ) :
    List ℚ → List PIsland → List (ℚ × ℚ) →
      Option (ℚ × ℚ) × List PIsland × List (ℚ × ℚ)
  | [], page, occ => (none, page, occ)
  | x :: xs, page, occ =>
    if x + isl.bbox.1 > cage.1 then tryX cage isl stopsY xs page occ
    else
      match tryY cage isl x stopsY page occ with
      | (some y, page2, occ2) => (some (x, y), page2, occ2)
      | (none, page2, occ2) => tryX cage isl stopsY xs page2 occ2

/-- `Mesh.fit_islands.try_emplace` (source/mesh.py lines 288-319): position
the island on the first fitting `(x, y)` stop pair, append it to the page
and extend the stop lists; on failure only the obstacle reordering and the
occupied cache survive. -/
def try_emplace (cage : Vec2) (isl : PIsland) (page : List PIsland)
    (sx sy : List ℚ) (occ : List (ℚ × ℚ)) :
    List PIsland × List ℚ × List ℚ × List (ℚ × ℚ) :=
  match tryX cage isl sy sx page occ with
  | (some xy, page2, occ2) =>
      (page2 ++ [{ isl with pos := xy }],
       sx ++ [xy.1 + isl.bbox.1], sy ++ [xy.2 + isl.bbox.2], occ2)
  | (none, page2, occ2) => (page2, sx, sy, occ2)

/-- `Mesh.fit_islands.drop_portion` (source/mesh.py lines 321-326).
`list.sort()` is stable; it is modelled by `insertionSort` (any stable sort
computes the same list). -/
def drop_portion (stops : List ℚ) (border : ℚ) (divisor : ℕ) : List ℚ :=
  let sorted := List.insertionSort (fun a b : ℚ => a ≤ b) stops
  let distances := (sorted.zip (sorted.drop 2 ++ [border])).map (fun lr => lr.2 - lr.1)
  let quantile :=
    ((List.insertionSort (fun a b : ℚ => a ≤ b) distances).get?
      (distances.length / divisor)).getD 0
  ((sorted.zip (quantile :: distances)).filter (fun sd => sd.2 ≥ quantile)).map Prod.fst

/-- The mutable state of one page-filling pass: the page island list, the
stop lists and the occupied cache. -/
structure PackState where
  page : List PIsland
  sx : List ℚ
  sy : List ℚ
  occ : List (ℚ × ℚ)

/-- One iteration of `for island in remaining_islands` inside the `while`
loop of `fit_islands` (source/mesh.py lines 343-348): try to emplace, then
possibly prune the stop lists. -/
def packStep (cage : Vec2) (total : ℕ) (st : PackState) (isl : PIsland) : PackState :=
  let r := try_emplace cage isl st.page st.sx st.sy st.occ
  let st2 : PackState := ⟨r.1, r.2.1, r.2.2.1, r.2.2.2⟩
  if st2.sx.length ^ 2 > 4 * total + 100 then
    { st2 with sx := drop_portion st2.sx cage.1 4, sy := drop_portion st2.sy cage.2 4 }
  else st2

/-- One full page-filling pass over the remaining islands, starting from a
fresh page with stop lists `[0]` and an empty occupied cache. -/
def runPage (cage : Vec2) (total : ℕ) (remaining : List PIsland) : List PIsland :=
  (remaining.foldl (packStep cage total) ⟨[], [0], [0], []⟩).page

/-- The `while remaining_islands:` loop of `fit_islands`.  Each pass fills
a page and drops the placed islands (identity membership) from the
remaining list.  A pass that places nothing would loop forever in Python;
that (unreachable, see `fitLoop_total` below) situation is modelled as
`none`. -/
def fitLoop (cage : Vec2) (total : ℕ) : List PIsland → Option (List (List PIsland))
  | [] => some []
  | isl :: rest =>
    let page := runPage cage total (isl :: rest)
    let rem2 := (isl :: rest).filter (fun j => ¬ (page.map PIsland.oid).contains j.oid)
    if h : rem2.length < (isl :: rest).length then
      (fitLoop cage total rem2).map (fun pages => page :: pages)
    else none
termination_by l => l.length
decreasing_by exact h

/-- `Mesh.fit_islands` (source/mesh.py lines 285-350): the too-big pre-check
raises `PmtError` (modelled `.error ()`), then islands are sorted by
descending bounding-box diagonal (Python's stable sort, modelled by a
stable insertion sort) and packed page by page. -/
def fit_islands (cage : Vec2) (islands : List PIsland) :
    Except Unit (Option (List (List PIsland))) :=
  if islands.any (fun i => decide (i.bbox.1 > cage.1 ∨ i.bbox.2 > cage.2)) then
    .error ()
  else
    .ok (fitLoop cage islands.length
      (List.insertionSort (fun a b : PIsland => len2 b.bbox ≤ len2 a.bbox) islands))

/-- An island placed within the page bounds `[0, cage.1] × [0, cage.2]`. -/
def inPage (cage : Vec2) (p : PIsland) : Prop :=
  0 ≤ p.pos.1 ∧ 0 ≤ p.pos.2 ∧
  p.pos.1 + p.bbox.1 ≤ cage.1 ∧ p.pos.2 + p.bbox.2 ≤ cage.2

/-- The packing invariant claimed for every produced page: pairwise
non-overlapping AABBs, all inside the page. -/
def PagePacked (cage : Vec2) (page : List PIsland) : Prop :=
  page.Pairwise (fun p q => overlapPI p q = false) ∧ ∀ p ∈ page, inPage cage p

/-! ## `Mesh.generate_cuts` (source/mesh.py lines 105-129): the cutting loop -/

section GenerateCuts

open scoped Classical

/-- The three weights read from the priority-effect dictionary
(`priority_effect['CONVEX']`, `['CONCAVE']`, `['LENGTH']`). -/
structure PriorityEffect where
  convex : ℝ
  concave : ℝ
  length : ℝ

/-- `Edge.generate_priority(priority_effect, average_length)`
(source/edge.py lines 340-347): convex angles are weighted by
`CONVEX * angle / pi`, concave ones by `CONCAVE * (-angle) / pi`, plus a
length term relative to the mesh average. -/
noncomputable def generate_priority (pe : PriorityEffect) (average_length : ℝ)
    (e : MEdge) : MEdge :=
  { e with priority :=
      (if e.angle > 0 then pe.convex * e.angle / Real.pi
       else pe.concave * (-e.angle) / Real.pi)
      + (vlen3 e.vector / average_length) * pe.length }

/-- `edges = [edge for edge in self.edges.values() if not edge.force_cut
and edge.main_faces]` (source/mesh.py line 114): the candidate edges, as
store keys in store order. -/
def joinCandidates (st : MState) : List ℕ :=
  (st.meshEdges.filter (fun ke => !ke.2.forceCut && ke.2.mainFaces.isSome)).map Prod.fst

/-- `average_length = sum(edge.vector.length for edge in edges) /
len(edges)` (source/mesh.py line 117). -/
noncomputable def averageLen (st : MState) (ks : List ℕ) : ℝ :=
  (ks.map (fun k => vlen3 (dgetD st.meshEdges k default).vector)).sum / ks.length

/-- `for edge in edges: edge.generate_priority(priority_effect,
average_length)` (source/mesh.py lines 118-119): the candidate edge objects
are updated in place in the shared store. -/
noncomputable def reprioritized (pe : PriorityEffect) (avg : ℝ) (st : MState)
    (ks : List ℕ) : MState :=
  { st with meshEdges :=
      ks.foldl (fun me k => dmodify me k (generate_priority pe avg)) st.meshEdges }

/-- `edges.sort(reverse=False, key=lambda edge: edge.priority)`
(source/mesh.py line 120): a stable ascending sort by current priority
(Python's Timsort is stable, so any stable sort is extensionally
faithful; insertion sort is one). -/
noncomputable def sortedCandidates (st : MState) (ks : List ℕ) : List ℕ :=
  List.insertionSort (fun a b : ℕ =>
    (dgetD st.meshEdges a default).priority ≤ (dgetD st.meshEdges b default).priority) ks

/-- One iteration of the join loop (source/mesh.py lines 121-127): skip
zero-length edges (`if not edge.vector: continue`, mathutils falsy =
zero vector), re-read the edge's `main_faces` from the store (earlier
joins may have rewritten them), attempt the join with the default
`epsilon = 1e-6`, and on success remove the absorbed island from the
working set (`islands.remove(old_island)`).  A `none` `main_faces` at
iteration time would make the Python generator expression raise
(iterating `None`): modelled as a fatal error. -/
noncomputable def cutStep (topo : Topo) (hullFn : List RVec2 → List ℕ)
    (pageSize : Option Vec2) (st : MState) (k : ℕ) : Except JoinErr MState :=
  let e := dgetD st.meshEdges k default
  if e.vector = 0 then .ok st
  else
    match e.mainFaces with
    | none => .error .fatal
    | some (la, lb) =>
      match join_island topo hullFn st la lb pageSize (1 / 1000000) with
      | .error err => .error err
      | .ok (none, st2) => .ok st2
      | .ok (some ibId, st2) => .ok { st2 with islands := derase st2.islands ibId }

/-- The cutting loop of `generate_cuts` (source/mesh.py lines 114-127):
when no candidate edge exists the `if edges:` block is skipped entirely;
otherwise priorities are computed against the average candidate length,
the candidates are stably sorted ascending by priority, and joins are
attempted in that order. -/
noncomputable def generate_cuts_core (topo : Topo) (hullFn : List RVec2 → List ℕ)
    (pageSize : Option Vec2) (pe : PriorityEffect) (st : MState) :
    Except JoinErr MState :=
  let ks := joinCandidates st
  if ks = [] then .ok st
  else
    let st1 := reprioritized pe (averageLen st ks) st ks
    (sortedCandidates st1 ks).foldlM (cutStep topo hullFn pageSize) st1

end GenerateCuts

/-- The concrete mesh state for the `generate_cuts` witness: `wState`
extended with a single candidate mesh edge of zero length. -/
def cState : MState :=
  { wState with meshEdges := [(0, ⟨true, some (7, 8), false, 0, 0, 0⟩)] }

/-! Theorems from here on: everything above is the embedding, everything
below states and proves properties of it. -/

section DictTheorems

variable {κ β : Type _} [DecidableEq κ]

theorem dget_dset_self (d : List (κ × β)) (k : κ) (v : β) :
    dget (dset d k v) k = some v := by
  induction d with
  | nil => simp [dset, dget]
  | cons kv t ih =>
      by_cases h : kv.1 = k
      · simp [dset, h, dget]
      · simp [dset, h, dget, ih]

theorem dget_of_mem_nodup (d : List (κ × β)) (k : κ) (v : β) :
    (d.map Prod.fst).Nodup → (k, v) ∈ d → dget d k = some v := by
  induction d with
  | nil => intro _ hm; cases hm
  | cons kv t ih =>
      intro hnd hm
      simp only [List.map_cons, List.nodup_cons] at hnd
      rcases kv with ⟨k1, v1⟩
      rcases List.mem_cons.mp hm with h | h
      · rw [Prod.mk.injEq] at h
        simp [dget, h.1, h.2]
      · have hne : k1 ≠ k := by
          intro he
          exact hnd.1 (he ▸ List.mem_map.mpr ⟨(k, v), h, rfl⟩)
        simpa [dget, hne] using ih hnd.2 h

theorem mem_of_dget (d : List (κ × β)) (k : κ) (v : β) :
    dget d k = some v → (k, v) ∈ d := by
  induction d with
  | nil => intro h; cases h
  | cons kv t ih =>
      rcases kv with ⟨k1, v1⟩
      intro h
      by_cases heq : k1 = k
      · rw [dget, if_pos heq] at h
        subst heq
        cases h
        exact List.mem_cons_self _ _
      · rw [dget, if_neg heq] at h
        exact List.mem_cons_of_mem _ (ih h)

theorem dget_derase (d : List (κ × β)) (k : κ) : dget (derase d k) k = none := by
  induction d with
  | nil => simp [derase, dget]
  | cons kv t ih =>
      by_cases h : kv.1 = k
      · simpa [derase, h] using ih
      · simpa [derase, h, dget, Ne.symm h] using ih

end DictTheorems

theorem pairsYields_eq {α : Type _} (first : α) :
    ∀ (rest : List α) (prev : α) (h : rest ≠ []),
      pairsYields first prev rest =
        (prev :: rest).zip rest ++ [(rest.getLast h, first)] := by
  intro rest
  induction rest with
  | nil => intro prev h; exact absurd rfl h
  | cons t r ih =>
      intro prev _
      cases r with
      | nil => simp [pairsYields, List.zip]
      | cons t2 r2 =>
          have h2 : (t2 :: r2) ≠ ([] : List α) := by simp
          simp only [pairsYields, ih t h2, List.zip, List.zipWith, List.getLast]
          simp [List.zip]

/-- Closed form for `pairs` on inputs with at least two elements. -/
theorem pairs_eq_of_two_le {α : Type _} (l : List α) (h : 2 ≤ l.length) :
    ∃ hne : l ≠ [],
      pairs l = some (l.zip l.tail ++ [(l.getLast hne, l.head hne)]) := by
  match l, h with
  | a :: b :: r, _ =>
      refine ⟨by simp, ?_⟩
      have hne2 : (b :: r) ≠ ([] : List α) := by simp
      have := pairsYields_eq a (b :: r) a hne2
      simp only [pairs, this]
      simp [List.getLast]

/-! ### C7: the join transform maps edge B onto edge A -/

theorem mul2_sub (m : Mat2) (u v : Vec2) : mul2 m (u - v) = mul2 m u - mul2 m v := by
  obtain ⟨⟨a, b⟩, ⟨c, d⟩⟩ := m
  obtain ⟨ux, uy⟩ := u
  obtain ⟨vx, vy⟩ := v
  simp [mul2, Prod.ext_iff]
  constructor <;> ring

theorem mul2_matMul (a b : Mat2) (v : Vec2) :
    mul2 (matMul a b) v = mul2 a (mul2 b v) := by
  obtain ⟨⟨a1, a2⟩, ⟨a3, a4⟩⟩ := a
  obtain ⟨⟨b1, b2⟩, ⟨b3, b4⟩⟩ := b
  obtain ⟨vx, vy⟩ := v
  simp [mul2, matMul, Prod.ext_iff]
  constructor <;> ring

theorem fitting_matrix_maps (v1 v2 : Vec2) (h : v1 ≠ 0) :
    mul2 (fitting_matrix v1 v2) v1 = v2 := by
  obtain ⟨x, y⟩ := v1
  obtain ⟨a, b⟩ := v2
  have hxy : x ≠ 0 ∨ y ≠ 0 := by
    by_contra hc
    push_neg at hc
    exact h (by simp [Prod.ext_iff, hc.1, hc.2])
  have hlen : x ^ 2 + y ^ 2 ≠ 0 := by
    rcases hxy with hx | hy
    · have : (0:ℚ) < x ^ 2 + y ^ 2 := by positivity
      exact this.ne'
    · have : (0:ℚ) < x ^ 2 + y ^ 2 := by positivity
      exact this.ne'
  simp only [fitting_matrix, smulM, mul2, len2, Prod.ext_iff]
  constructor <;> field_simp <;> ring

theorem mul2_flipM_ne_zero (v : Vec2) (h : v ≠ 0) : mul2 flipM v ≠ 0 := by
  obtain ⟨x, y⟩ := v
  simp only [flipM, mul2, ne_eq, Prod.mk_eq_zero, not_and] at h ⊢
  intro h1 h2
  exact h (by linarith) (by linarith)

/-- C7: the 2D transform computed by `join_island` (rotation `rot` plus
translation `trans`, with the reflection composed in when `flipped` is set)
maps edge B's endpoints exactly onto edge A's endpoints in the opposite
order: `rot @ first_b + trans = edgeA.vb` and
`rot @ second_b + trans = edgeA.va`, in exact rational arithmetic, whenever
the direction vector `first_b - second_b` is nonzero. -/
theorem joinRotTrans_maps_endpoints (flipped : Bool) (firstB secondB vaA vbA : Vec2)
    (h : firstB - secondB ≠ 0) :
    mul2 (joinRotTrans flipped firstB secondB vaA vbA).1 firstB +
        (joinRotTrans flipped firstB secondB vaA vbA).2 = vbA ∧
    mul2 (joinRotTrans flipped firstB secondB vaA vbA).1 secondB +
        (joinRotTrans flipped firstB secondB vaA vbA).2 = vaA := by
  have hsnd : (joinRotTrans flipped firstB secondB vaA vbA).2 =
      vbA - mul2 (joinRotTrans flipped firstB secondB vaA vbA).1 firstB := rfl
  have key : mul2 (joinRotTrans flipped firstB secondB vaA vbA).1 (firstB - secondB) =
      vbA - vaA := by
    cases flipped with
    | false => simpa [joinRotTrans] using fitting_matrix_maps (firstB - secondB) (vbA - vaA) h
    | true =>
        have hf := mul2_flipM_ne_zero (firstB - secondB) h
        have hfit := fitting_matrix_maps (mul2 flipM (firstB - secondB)) (vbA - vaA) hf
        simp only [joinRotTrans, if_true]
        rw [mul2_matMul]
        exact hfit
  constructor
  · rw [hsnd]
    abel
  · rw [hsnd]
    rw [mul2_sub] at key
    calc mul2 (joinRotTrans flipped firstB secondB vaA vbA).1 secondB +
          (vbA - mul2 (joinRotTrans flipped firstB secondB vaA vbA).1 firstB)
        = vbA - (mul2 (joinRotTrans flipped firstB secondB vaA vbA).1 firstB -
            mul2 (joinRotTrans flipped firstB secondB vaA vbA).1 secondB) := by abel
      _ = vbA - (vbA - vaA) := by rw [key]
      _ = vaA := by abel

/-- C7 witness: a concrete instance with a nonzero edge direction, in both
the reflected and non-reflected cases. -/
theorem joinRotTrans_maps_endpoints_witness :
    (mul2 (joinRotTrans false (1, 0) (0, 0) (5, 5) (6, 5)).1 (1, 0) +
        (joinRotTrans false (1, 0) (0, 0) (5, 5) (6, 5)).2 = (6, 5) ∧
     mul2 (joinRotTrans false (1, 0) (0, 0) (5, 5) (6, 5)).1 (0, 0) +
        (joinRotTrans false (1, 0) (0, 0) (5, 5) (6, 5)).2 = (5, 5)) ∧
    (mul2 (joinRotTrans true (2, 1) (0, 0) (0, 0) (1, 1)).1 (2, 1) +
        (joinRotTrans true (2, 1) (0, 0) (0, 0) (1, 1)).2 = (1, 1) ∧
     mul2 (joinRotTrans true (2, 1) (0, 0) (0, 0) (1, 1)).1 (0, 0) +
        (joinRotTrans true (2, 1) (0, 0) (0, 0) (1, 1)).2 = (0, 0)) :=
  ⟨joinRotTrans_maps_endpoints false (1, 0) (0, 0) (5, 5) (6, 5)
      (by simp [Prod.mk_sub_mk, Prod.mk_eq_zero]),
   joinRotTrans_maps_endpoints true (2, 1) (0, 0) (0, 0) (1, 1)
      (by simp [Prod.mk_sub_mk, Prod.mk_eq_zero])⟩

/-! ### C3: `calculate_angle` -/

/-- C3 counterexample: for a degenerate (null) main-face normal,
`calculate_angle` stores the sentinel `-3`, which is NOT `-π` as the claim
states. -/
theorem calculate_angle_sentinel_counterexample :
    calculate_angle 0 (0, 0, 1) (1, 0, 0) 0 1 2 3 = -3 ∧
    calculate_angle 0 (0, 0, 1) (1, 0, 0) 0 1 2 3 ≠ -Real.pi := by
  have h1 : calculate_angle 0 (0, 0, 1) (1, 0, 0) 0 1 2 3 = -3 := by
    simp [calculate_angle]
  refine ⟨h1, ?_⟩
  rw [h1]
  intro hc
  have h3 : Real.pi = 3 := by linarith [neg_injective hc]
  have := Real.pi_gt_three
  rw [h3] at this
  exact lt_irrefl _ this

/-- C3 (amended): with the sentinel value `-3` (not `-π`): if either chosen
main face's normal is null, `calculate_angle` sets the angle to `-3`;
otherwise it sets `asin(clamp(normalA × normalB · edgeDirUnit, -1, 1))`,
replaced by its absolute value when the face winding around the edge is
inconsistent. -/
theorem calculate_angle_amended (na nb vec : Vec3) (lna lvb lnb lva : ℕ) :
    (na = 0 ∨ nb = 0 → calculate_angle na nb vec lna lvb lnb lva = -3) ∧
    (¬ (na = 0 ∨ nb = 0) →
      calculate_angle na nb vec lna lvb lnb lva =
        (if lna ≠ lvb ∨ lnb ≠ lva
         then |Real.arcsin (max (min (dot3R (cross3 na nb) (normalized3 vec)) 1) (-1))|
         else Real.arcsin (max (min (dot3R (cross3 na nb) (normalized3 vec)) 1) (-1)))) := by
  constructor <;> intro h
  · simp [calculate_angle, h]
  · simp only [calculate_angle, if_neg h]

/-- C3 witness: concrete nonzero normals with consistent winding give the
clamped-arcsin angle; the degenerate case gives `-3`. -/
theorem calculate_angle_amended_witness :
    calculate_angle (1, 0, 0) (0, 1, 0) (0, 0, 1) 1 1 0 0 =
      Real.arcsin (max (min (dot3R (cross3 ((1:ℚ), (0:ℚ), (0:ℚ)) (0, 1, 0))
        (normalized3 (0, 0, 1))) 1) (-1)) ∧
    calculate_angle (0, 0, 0) (0, 1, 0) (0, 0, 1) 1 1 0 0 = -3 := by
  constructor
  · have h := (calculate_angle_amended (1, 0, 0) (0, 1, 0) (0, 0, 1) 1 1 0 0).2
      (by simp [Prod.mk_eq_zero])
    rw [h, if_neg (by decide)]
  · exact (calculate_angle_amended (0, 0, 0) (0, 1, 0) (0, 0, 1) 1 1 0 0).1
      (Or.inl (by simp [Prod.mk_eq_zero]))

/-! ### C2: the vertex-coalescing threshold -/

/-- C2 counterexample: with edge A of 3D length 4 and the default
`epsilon = 1e-6`, a vertex pair at squared 2D distance `1e-6` IS merged by
the code (the code's threshold is `edgeLength * epsilon = 4e-6`), although
the claim's threshold `edgeLength² × epsilon² = 16e-12` says it must not
be. -/
theorem coalesce_threshold_counterexample :
    dget (coalescePairStep (calc_length (0, 0, 0) (4, 0, 0) * (1 / 1000000))
        [(⟨1, (1 / 1000, 0)⟩, ⟨2, (1 / 1000, 0)⟩)] ⟨0, (0, 0)⟩ ⟨1, (1 / 1000, 0)⟩)
        ⟨1, (1 / 1000, 0)⟩ = some ⟨0, (0, 0)⟩ ∧
    ¬ (((dist2 (0, 0) (1 / 1000, 0) : ℚ) : ℝ) <
        (calc_length (0, 0, 0) (4, 0, 0)) ^ 2 * (1 / 1000000) ^ 2) := by
  have hlen : calc_length ((0:ℚ), (0:ℚ), (0:ℚ)) (4, 0, 0) = 4 := by
    have : quad3 (((4:ℚ), (0:ℚ), (0:ℚ)) - (0, 0, 0)) = 16 := by
      simp [quad3, Prod.ext_iff]
      norm_num
    simp only [calc_length, vlen3, this]
    rw [show ((16:ℚ):ℝ) = 4 ^ 2 by norm_num, Real.sqrt_sq (by norm_num : (0:ℝ) ≤ 4)]
  have hd : dist2 ((0:ℚ), (0:ℚ)) (1 / 1000, 0) = 1 / 1000000 := by
    simp [dist2]
    norm_num
  constructor
  · have hget : dgetD [((⟨1, (1 / 1000, 0)⟩ : UVV), (⟨2, (1 / 1000, 0)⟩ : UVV))]
        ⟨1, (1 / 1000, 0)⟩ ⟨1, (1 / 1000, 0)⟩ = ⟨2, (1 / 1000, 0)⟩ := by
      simp [dgetD, dget]
    have hcond : ((dist2 (⟨0, (0, 0)⟩ : UVV).co
        (dgetD [((⟨1, (1 / 1000, 0)⟩ : UVV), (⟨2, (1 / 1000, 0)⟩ : UVV))]
          ⟨1, (1 / 1000, 0)⟩ ⟨1, (1 / 1000, 0)⟩).co : ℚ) : ℝ) <
        calc_length (0, 0, 0) (4, 0, 0) * (1 / 1000000) := by
      rw [hget, hlen]
      show ((dist2 (0, 0) (1 / 1000, 0) : ℚ) : ℝ) < 4 * (1 / 1000000)
      rw [hd]
      norm_num
    rw [coalescePairStep, if_pos hcond]
    show dget (dset (root_find (⟨0, (0, 0)⟩ : UVV)
        [(⟨1, (1 / 1000, 0)⟩, ⟨2, (1 / 1000, 0)⟩)]).2 ⟨1, (1 / 1000, 0)⟩
        (root_find (⟨0, (0, 0)⟩ : UVV) [(⟨1, (1 / 1000, 0)⟩, ⟨2, (1 / 1000, 0)⟩)]).1)
        ⟨1, (1 / 1000, 0)⟩ = some ⟨0, (0, 0)⟩
    rw [dget_dset_self]
    have hroot : (root_find (⟨0, (0, 0)⟩ : UVV)
        [(⟨1, (1 / 1000, 0)⟩, ⟨2, (1 / 1000, 0)⟩)]).1 = ⟨0, (0, 0)⟩ := by
      simp [root_find, rootFindGo, dget]
    rw [hroot]
  · rw [hlen, hd]
    norm_num

/-- C2 (amended): during vertex coalescing in `join_island`, a
phantom/absorber pair `(a, b)` is merged (the phantom entry of `b` is
redirected to the union-find root of `a`) exactly when the squared 2D
distance between `a` and the current phantom position of `b` is below
`edgeLength(edgeA) × epsilon` — the edge length and epsilon enter linearly,
not squared. -/
theorem coalescePairStep_merges_iff (L : ℝ) (ph : List (UVV × UVV)) (a b : UVV) :
    (((dist2 a.co (dgetD ph b b).co : ℚ) : ℝ) < L →
      dget (coalescePairStep L ph a b) b = some (root_find a ph).1) ∧
    (¬ ((dist2 a.co (dgetD ph b b).co : ℚ) : ℝ) < L →
      coalescePairStep L ph a b = ph) := by
  constructor <;> intro h
  · rw [coalescePairStep, if_pos h]
    exact dget_dset_self ..
  · rw [coalescePairStep, if_neg h]

/-- C2 witness: a concrete merge (distance 0 below limit 1) and a concrete
non-merge. -/
theorem coalescePairStep_merges_iff_witness :
    dget (coalescePairStep 1 [] ⟨0, (0, 0)⟩ ⟨1, (0, 0)⟩) ⟨1, (0, 0)⟩ =
      some (root_find (⟨0, (0, 0)⟩ : UVV) []).1 ∧
    coalescePairStep 0 [] ⟨0, (0, 0)⟩ ⟨1, (0, 0)⟩ = [] := by
  constructor
  · refine (coalescePairStep_merges_iff 1 [] ⟨0, (0, 0)⟩ ⟨1, (0, 0)⟩).1 ?_
    norm_num [dgetD, dget, dist2]
  · refine (coalescePairStep_merges_iff 0 [] ⟨0, (0, 0)⟩ ⟨1, (0, 0)⟩).2 ?_
    norm_num [dgetD, dget, dist2]

/-! ### C6: `cage_fit` candidate generation and minimality -/

section CageFitTheorems

open scoped Classical

theorem lexMinFold_mem (c : ℝ × ℝ × ℝ) (cs : List (ℝ × ℝ × ℝ)) :
    lexMinFold c cs ∈ c :: cs := by
  induction cs generalizing c with
  | nil => simp [lexMinFold]
  | cons d ds ih =>
      have h2 := ih (if lexLtC d c then d else c)
      simp only [lexMinFold, List.foldl_cons] at h2 ⊢
      rcases List.mem_cons.mp h2 with h3 | h3
      · by_cases h : lexLtC d c
        · rw [if_pos h] at h3
          simp [h, h3]
        · rw [if_neg h] at h3
          simp [h, h3]
      · simp [List.mem_cons, h3]

theorem lexMinFold_fst_le (c : ℝ × ℝ × ℝ) (cs : List (ℝ × ℝ × ℝ)) :
    ∀ x ∈ c :: cs, (lexMinFold c cs).1 ≤ x.1 := by
  induction cs generalizing c with
  | nil =>
      intro x hx
      rw [List.mem_singleton.mp hx]
      simp [lexMinFold]
  | cons d ds ih =>
      have hstep : (if lexLtC d c then d else c).1 ≤ c.1 ∧
          (if lexLtC d c then d else c).1 ≤ d.1 := by
        by_cases h : lexLtC d c
        · rw [if_pos h]
          rcases h with h | ⟨heq, _⟩
          · exact ⟨le_of_lt h, le_refl _⟩
          · exact ⟨le_of_eq heq, le_refl _⟩
        · rw [if_neg h]
          rw [lexLtC, not_or] at h
          exact ⟨le_refl _, le_of_not_lt h.1⟩
      have hfold : ∀ x ∈ (if lexLtC d c then d else c) :: ds,
          (lexMinFold (if lexLtC d c then d else c) ds).1 ≤ x.1 :=
        ih (if lexLtC d c then d else c)
      intro x hx
      have hle : (lexMinFold c (d :: ds)).1 ≤ (if lexLtC d c then d else c).1 := by
        simpa [lexMinFold, List.foldl_cons] using
          hfold (if lexLtC d c then d else c) (List.mem_cons_self _ _)
      rcases List.mem_cons.mp hx with h3 | h3
      · rw [h3]
        exact le_trans hle hstep.1
      · rcases List.mem_cons.mp h3 with h4 | h4
        · rw [h4]
          exact le_trans hle hstep.2
        · simpa [lexMinFold, List.foldl_cons] using
            hfold x (List.mem_cons_of_mem _ h4)

/-- C6 counterexample: on a one-point set the hull polygon is a single
point, the `pairs` generator raises before yielding anything, and
`cage_fit` aborts with an exception instead of terminating normally with a
minimum: there is no candidate at all.  (The same holds for every possible
hull index list over this point set.) -/
theorem cage_fit_degenerate_counterexample :
    cage_fit (hullHead [((0 : ℝ), 0)]) [((0 : ℝ), 0)] 1 = none := rfl

/-- C6 (amended): whenever the hull polygon yields at least one pair of
distinct consecutive vertices, the candidate stream is non-empty, `cage_fit`
terminates normally, and the returned height is the globally minimal height
among all generated candidates. -/
theorem cage_fit_amended (hull : List ℕ) (points : List RVec2) (aspect : ℝ)
    (prs : List (RVec2 × RVec2))
    (hprs : pairs (polygonOf hull points) = some prs)
    (hne : ∃ pr ∈ prs, pr.1 ≠ pr.2) :
    ∃ m, m ∈ prs.flatMap (guessesFor aspect (polygonOf hull points)) ∧
      cage_fit hull points aspect = some (atan2R m.2.1 m.2.2, m.1) ∧
      ∀ cand ∈ prs.flatMap (guessesFor aspect (polygonOf hull points)),
        m.1 ≤ cand.1 := by
  obtain ⟨pr, hmem, hpr⟩ := hne
  have hcontrib : guessesFor aspect (polygonOf hull points) pr ≠ [] := by
    unfold guessesFor
    rw [if_neg hpr]
    simp
  have hbindne : prs.flatMap (guessesFor aspect (polygonOf hull points)) ≠ [] := by
    intro hc
    rw [List.flatMap_eq_nil_iff] at hc
    exact hcontrib (hc pr hmem)
  rcases hbind : prs.flatMap (guessesFor aspect (polygonOf hull points)) with _ | ⟨c, cs⟩
  · exact absurd hbind hbindne
  · refine ⟨lexMinFold c cs, ?_, ?_, ?_⟩
    · exact lexMinFold_mem c cs
    · simp only [cage_fit, hprs, hbind]
    · exact lexMinFold_fst_le c cs

end CageFitTheorems

/-- C6 witness: on the two-point set {(0,0), (1,0)} with hull [0, 1],
`cage_fit` terminates normally (returns a value). -/
theorem cage_fit_amended_witness :
    cage_fit [0, 1] [((0 : ℝ), 0), (1, 0)] 1 ≠ none := by
  have hprs : pairs (polygonOf [0, 1] [((0 : ℝ), 0), (1, 0)]) =
      some [(((0 : ℝ), 0), ((1 : ℝ), 0)), (((1 : ℝ), 0), ((0 : ℝ), 0))] := rfl
  obtain ⟨m, _, heq, _⟩ := cage_fit_amended [0, 1] [((0 : ℝ), 0), (1, 0)] 1 _ hprs
    ⟨(((0 : ℝ), 0), ((1 : ℝ), 0)), List.mem_cons_self _ _, by
      simp [Prod.ext_iff]⟩
  rw [heq]
  simp

/-! ### C5: the size check of `join_island` -/

/-- C5 counterexample: on a combined point set whose bounding box already
fits within the limit, the code passes the size check WITHOUT running the
bounding-box rotation fit (here the point set is degenerate, so actually
running the fit as the claim describes would raise an exception instead):
`size_check` (the code) and `size_check_claimed` (the claim's words) differ
at this input. -/
theorem size_check_skips_fit_counterexample :
    size_check hullHead [(0, 0), (0, 0)] (1, 1) = some true ∧
    size_check_claimed hullHead [(0, 0), (0, 0)] (1, 1) = none := by
  have hb : bboxOf ((0 : ℚ), (0 : ℚ)) [(0, 0)] = (0, 0) := by
    norm_num [bboxOf]
  constructor
  · simp only [size_check, hb]
    norm_num
  · simp only [size_check_claimed, hb]
    norm_num
    rfl

/-- C5 (amended): `join_island`'s size check rejects when the smaller
bounding-box dimension exceeds the limit's diagonal; otherwise, when the
bounding box already fits within the limit in one of the two axis
orientations, the check passes WITHOUT running the rotation fit; only
otherwise is `cage_fit` run on the combined point set, rejecting exactly
when the fitted height exceeds the limit's height. -/
theorem size_check_amended (hullFn : List RVec2 → List ℕ) (p : Vec2)
    (ps : List Vec2) (limit : Vec2) :
    ((min (bboxOf p ps).1 (bboxOf p ps).2) ^ 2 > limit.1 ^ 2 + limit.2 ^ 2 →
      size_check hullFn (p :: ps) limit = some false) ∧
    (¬ (min (bboxOf p ps).1 (bboxOf p ps).2) ^ 2 > limit.1 ^ 2 + limit.2 ^ 2 →
      ¬ (((bboxOf p ps).1 > limit.1 ∨ (bboxOf p ps).2 > limit.2) ∧
         ((bboxOf p ps).2 > limit.1 ∨ (bboxOf p ps).1 > limit.2)) →
      size_check hullFn (p :: ps) limit = some true) ∧
    (¬ (min (bboxOf p ps).1 (bboxOf p ps).2) ^ 2 > limit.1 ^ 2 + limit.2 ^ 2 →
      (((bboxOf p ps).1 > limit.1 ∨ (bboxOf p ps).2 > limit.2) ∧
       ((bboxOf p ps).2 > limit.1 ∨ (bboxOf p ps).1 > limit.2)) →
      size_check hullFn (p :: ps) limit =
        (match cage_fit (hullFn ((p :: ps).map toR2)) ((p :: ps).map toR2)
            ((limit.2 : ℝ) / (limit.1 : ℝ)) with
         | none => none
         | some ah => if ah.2 > (limit.2 : ℝ) then some false else some true)) := by
  refine ⟨fun h1 => ?_, fun h1 h2 => ?_, fun h1 h2 => ?_⟩
  · simp only [size_check]
    rw [if_pos h1]
  · simp only [size_check]
    rw [if_neg h1, if_neg h2]
  · simp only [size_check]
    rw [if_neg h1, if_pos h2]

/-- C5 witness: a point set whose smaller bounding-box dimension exceeds the
diagonal of the (1,1) limit is rejected by the size check. -/
theorem size_check_amended_witness :
    size_check hullHead [(0, 0), (10, 10)] (1, 1) = some false := by
  refine (size_check_amended hullHead (0, 0) [(10, 10)] (1, 1)).1 ?_
  norm_num [bboxOf]

/-! ### C4 and C9: the packing engine -/

theorem overlapPI_symm (p q : PIsland) : overlapPI p q = overlapPI q p := by
  simp only [overlapPI, decide_eq_decide]
  tauto

theorem findObstacle_none (x y : ℚ) (b : Vec2) :
    ∀ (l : List PIsland) (i : ℕ), findObstacle x y b l i = none →
      ∀ o ∈ l, overlapsAt x y b o = false := by
  intro l
  induction l with
  | nil =>
      intro i _ o ho
      simp at ho
  | cons a t ih =>
      intro i h o ho
      rw [findObstacle] at h
      by_cases hov : overlapsAt x y b a
      · rw [if_pos hov] at h
        exact absurd h (by simp)
      · rw [if_neg hov] at h
        rcases List.mem_cons.mp ho with rfl | hmem
        · simpa using hov
        · exact ih (i + 1) h o hmem

theorem moveToFront_perm (i : ℕ) (l : List PIsland) : (moveToFront i l).Perm l := by
  cases hg : l[i]? with
  | none => simp [moveToFront, hg]
  | some o =>
      simp only [moveToFront, hg]
      have hi : i < l.length := by
        by_contra hc
        push_neg at hc
        rw [List.getElem?_eq_none hc] at hg
        exact absurd hg (by simp)
      have ho : l[i] = o := by
        have h1 := List.getElem?_eq_getElem hi
        rw [hg] at h1
        exact (Option.some.inj h1).symm
      have hl : l = l.take i ++ o :: l.drop (i + 1) := by
        conv_lhs => rw [← List.take_append_drop i l]
        rw [List.drop_eq_getElem_cons hi, ho]
      conv_rhs => rw [hl]
      exact List.perm_middle.symm

theorem tryY_spec (cage : Vec2) (isl : PIsland) (x : ℚ) :
    ∀ (ys : List ℚ) (page : List PIsland) (occ : List (ℚ × ℚ)),
      (tryY cage isl x ys page occ).2.1.Perm page ∧
      (∀ y : ℚ, (tryY cage isl x ys page occ).1 = some y →
        ¬ y + isl.bbox.2 > cage.2 ∧ y ∈ ys ∧
        ∀ o ∈ (tryY cage isl x ys page occ).2.1,
          overlapsAt x y isl.bbox o = false) := by
  intro ys
  induction ys with
  | nil =>
      intro page occ
      exact ⟨by simp [tryY], fun y hy => by simp [tryY] at hy⟩
  | cons y0 ys ih =>
      intro page occ
      by_cases hskip : y0 + isl.bbox.2 > cage.2 ∨ occ.contains (x, y0)
      · have heq : tryY cage isl x (y0 :: ys) page occ = tryY cage isl x ys page occ := by
          rw [tryY, if_pos hskip]
        rw [heq]
        obtain ⟨hperm, hsucc⟩ := ih page occ
        exact ⟨hperm, fun y hy =>
          ⟨(hsucc y hy).1, List.mem_cons_of_mem _ (hsucc y hy).2.1, (hsucc y hy).2.2⟩⟩
      · cases hfo : findObstacle x y0 isl.bbox page 0 with
        | some io =>
            have heq : tryY cage isl x (y0 :: ys) page occ =
                tryY cage isl x ys (moveToFront io.1 page)
                  (if x ≥ io.2.pos.1 ∧ y0 ≥ io.2.pos.2 then occ ++ [(x, y0)] else occ) := by
              rw [tryY, if_neg hskip, hfo]
            rw [heq]
            obtain ⟨hperm, hsucc⟩ := ih (moveToFront io.1 page) _
            exact ⟨hperm.trans (moveToFront_perm io.1 page), fun y hy =>
              ⟨(hsucc y hy).1, List.mem_cons_of_mem _ (hsucc y hy).2.1, (hsucc y hy).2.2⟩⟩
        | none =>
            have heq : tryY cage isl x (y0 :: ys) page occ = (some y0, page, occ) := by
              rw [tryY, if_neg hskip, hfo]
            rw [heq]
            refine ⟨List.Perm.refl _, fun y hy => ?_⟩
            have hy0 : y0 = y := Option.some.inj hy
            subst hy0
            refine ⟨(not_or.mp hskip).1, List.mem_cons_self _ _, ?_⟩
            intro o ho
            exact findObstacle_none x y0 isl.bbox page 0 hfo o ho

theorem tryX_spec (cage : Vec2) (isl : PIsland) (sy : List ℚ) :
    ∀ (xs : List ℚ) (page : List PIsland) (occ : List (ℚ × ℚ)),
      (tryX cage isl sy xs page occ).2.1.Perm page ∧
      (∀ xy : ℚ × ℚ, (tryX cage isl sy xs page occ).1 = some xy →
        ¬ xy.1 + isl.bbox.1 > cage.1 ∧ xy.1 ∈ xs ∧
        ¬ xy.2 + isl.bbox.2 > cage.2 ∧ xy.2 ∈ sy ∧
        ∀ o ∈ (tryX cage isl sy xs page occ).2.1,
          overlapsAt xy.1 xy.2 isl.bbox o = false) := by
  intro xs
  induction xs with
  | nil =>
      intro page occ
      exact ⟨by simp [tryX], fun xy hxy => by simp [tryX] at hxy⟩
  | cons x0 xs ih =>
      intro page occ
      by_cases hover : x0 + isl.bbox.1 > cage.1
      · have heq : tryX cage isl sy (x0 :: xs) page occ = tryX cage isl sy xs page occ := by
          rw [tryX, if_pos hover]
        rw [heq]
        obtain ⟨hperm, hsucc⟩ := ih page occ
        refine ⟨hperm, fun xy hxy => ?_⟩
        obtain ⟨h1, h2, h3⟩ := hsucc xy hxy
        exact ⟨h1, List.mem_cons_of_mem _ h2, h3⟩
      · rcases hty : tryY cage isl x0 sy page occ with ⟨r, page2, occ2⟩
        have hspec := tryY_spec cage isl x0 sy page occ
        rw [hty] at hspec
        cases r with
        | some y =>
            have heq : tryX cage isl sy (x0 :: xs) page occ = (some (x0, y), page2, occ2) := by
              rw [tryX, if_neg hover, hty]
            rw [heq]
            refine ⟨hspec.1, fun xy hxy => ?_⟩
            have hxy0 : (x0, y) = xy := Option.some.inj hxy
            subst hxy0
            exact ⟨hover, List.mem_cons_self _ _, (hspec.2 y rfl).1,
              (hspec.2 y rfl).2.1, (hspec.2 y rfl).2.2⟩
        | none =>
            have heq : tryX cage isl sy (x0 :: xs) page occ =
                tryX cage isl sy xs page2 occ2 := by
              rw [tryX, if_neg hover, hty]
            rw [heq]
            obtain ⟨hperm2, hsucc2⟩ := ih page2 occ2
            refine ⟨hperm2.trans hspec.1, fun xy hxy => ?_⟩
            obtain ⟨h1, h2, h3⟩ := hsucc2 xy hxy
            exact ⟨h1, List.mem_cons_of_mem _ h2, h3⟩

theorem pagePacked_of_perm {cage : Vec2} {l m : List PIsland} (hperm : l.Perm m)
    (h : PagePacked cage m) : PagePacked cage l := by
  obtain ⟨hpw, hin⟩ := h
  constructor
  · exact (hperm.pairwise_iff (fun hxy => by rw [overlapPI_symm]; exact hxy)).mpr hpw
  · intro p hp
    exact hin p (hperm.mem_iff.mp hp)

theorem try_emplace_invariant (cage : Vec2) (isl : PIsland) (page : List PIsland)
    (sx sy : List ℚ) (occ : List (ℚ × ℚ))
    (hpacked : PagePacked cage page)
    (hsx : ∀ s ∈ sx, 0 ≤ s) (hsy : ∀ s ∈ sy, 0 ≤ s)
    (hb1 : 0 ≤ isl.bbox.1) (hb2 : 0 ≤ isl.bbox.2) :
    PagePacked cage (try_emplace cage isl page sx sy occ).1 ∧
    (∀ s ∈ (try_emplace cage isl page sx sy occ).2.1, 0 ≤ s) ∧
    (∀ s ∈ (try_emplace cage isl page sx sy occ).2.2.1, 0 ≤ s) := by
  rcases htx : tryX cage isl sy sx page occ with ⟨r, page2, occ2⟩
  have hspec := tryX_spec cage isl sy sx page occ
  rw [htx] at hspec
  have hpacked2 : PagePacked cage page2 := pagePacked_of_perm hspec.1 hpacked
  cases r with
  | none =>
      have heq : try_emplace cage isl page sx sy occ = (page2, sx, sy, occ2) := by
        rw [try_emplace, htx]
      rw [heq]
      exact ⟨hpacked2, hsx, hsy⟩
  | some xy =>
      have heq : try_emplace cage isl page sx sy occ =
          (page2 ++ [{ isl with pos := xy }],
           sx ++ [xy.1 + isl.bbox.1], sy ++ [xy.2 + isl.bbox.2], occ2) := by
        rw [try_emplace, htx]
      rw [heq]
      obtain ⟨hx1, hx2, hy1, hy2, hnool⟩ := hspec.2 xy rfl
      have hxpos : 0 ≤ xy.1 := hsx xy.1 hx2
      have hypos : 0 ≤ xy.2 := hsy xy.2 hy2
      refine ⟨⟨?_, ?_⟩, ?_, ?_⟩
      · rw [List.pairwise_append]
        refine ⟨hpacked2.1, by simp, ?_⟩
        intro a ha b hb
        rw [List.mem_singleton.mp hb, overlapPI_symm]
        show overlapsAt xy.1 xy.2 isl.bbox a = false
        exact hnool a ha
      · intro p hp
        rcases List.mem_append.mp hp with h | h
        · exact hpacked2.2 p h
        · rw [List.mem_singleton.mp h]
          exact ⟨hxpos, hypos, not_lt.mp hx1, not_lt.mp hy1⟩
      · intro s hs
        rcases List.mem_append.mp hs with h | h
        · exact hsx s h
        · rw [List.mem_singleton.mp h]
          exact add_nonneg hxpos hb1
      · intro s hs
        rcases List.mem_append.mp hs with h | h
        · exact hsy s h
        · rw [List.mem_singleton.mp h]
          exact add_nonneg hypos hb2

theorem drop_portion_subset (stops : List ℚ) (border : ℚ) (divisor : ℕ) :
    ∀ s ∈ drop_portion stops border divisor, s ∈ stops := by
  intro s hs
  simp only [drop_portion, List.mem_map] at hs
  obtain ⟨sd, hsd, hfst⟩ := hs
  have hz := (List.mem_filter.mp hsd).1
  have hsorted : sd.1 ∈ List.insertionSort (fun a b : ℚ => a ≤ b) stops := by
    have := List.of_mem_zip (a := sd.1) (b := sd.2) (by simpa using hz)
    exact this.1
  rw [← hfst]
  exact (List.perm_insertionSort (fun a b : ℚ => a ≤ b) stops).mem_iff.mp hsorted

theorem packStep_invariant (cage : Vec2) (total : ℕ) (st : PackState) (isl : PIsland)
    (h : PagePacked cage st.page ∧ (∀ s ∈ st.sx, 0 ≤ s) ∧ (∀ s ∈ st.sy, 0 ≤ s))
    (hb1 : 0 ≤ isl.bbox.1) (hb2 : 0 ≤ isl.bbox.2) :
    PagePacked cage (packStep cage total st isl).page ∧
    (∀ s ∈ (packStep cage total st isl).sx, 0 ≤ s) ∧
    (∀ s ∈ (packStep cage total st isl).sy, 0 ≤ s) := by
  obtain ⟨hp, hsx, hsy⟩ := h
  have hte := try_emplace_invariant cage isl st.page st.sx st.sy st.occ hp hsx hsy hb1 hb2
  rw [packStep]
  split
  · refine ⟨hte.1, ?_, ?_⟩
    · intro s hs
      exact hte.2.1 s (drop_portion_subset _ _ _ s hs)
    · intro s hs
      exact hte.2.2 s (drop_portion_subset _ _ _ s hs)
  · exact hte

theorem foldl_packStep_invariant (cage : Vec2) (total : ℕ) :
    ∀ (l : List PIsland) (st : PackState),
      (∀ i ∈ l, 0 ≤ i.bbox.1 ∧ 0 ≤ i.bbox.2) →
      (PagePacked cage st.page ∧ (∀ s ∈ st.sx, 0 ≤ s) ∧ (∀ s ∈ st.sy, 0 ≤ s)) →
      PagePacked cage (l.foldl (packStep cage total) st).page ∧
      (∀ s ∈ (l.foldl (packStep cage total) st).sx, 0 ≤ s) ∧
      (∀ s ∈ (l.foldl (packStep cage total) st).sy, 0 ≤ s) := by
  intro l
  induction l with
  | nil => intro st _ h; simpa using h
  | cons a t ih =>
      intro st hb h
      rw [List.foldl_cons]
      exact ih (packStep cage total st a)
        (fun i hi => hb i (List.mem_cons_of_mem _ hi))
        (packStep_invariant cage total st a h
          (hb a (List.mem_cons_self _ _)).1 (hb a (List.mem_cons_self _ _)).2)

theorem runPage_packed (cage : Vec2) (total : ℕ) (remaining : List PIsland)
    (hb : ∀ i ∈ remaining, 0 ≤ i.bbox.1 ∧ 0 ≤ i.bbox.2) :
    PagePacked cage (runPage cage total remaining) := by
  have h0 : PagePacked cage ([] : List PIsland) ∧
      (∀ s ∈ [(0:ℚ)], 0 ≤ s) ∧ (∀ s ∈ [(0:ℚ)], 0 ≤ s) := by
    refine ⟨⟨List.Pairwise.nil, by simp⟩, ?_, ?_⟩ <;>
      · intro s hs
        rw [List.mem_singleton.mp hs]
  exact (foldl_packStep_invariant cage total remaining ⟨[], [0], [0], []⟩ hb h0).1

theorem fitLoop_packed (cage : Vec2) (total : ℕ) :
    ∀ (n : ℕ) (remaining : List PIsland), remaining.length ≤ n →
      (∀ i ∈ remaining, 0 ≤ i.bbox.1 ∧ 0 ≤ i.bbox.2) →
      ∀ pages, fitLoop cage total remaining = some pages →
        ∀ pg ∈ pages, PagePacked cage pg := by
  intro n
  induction n with
  | zero =>
      intro remaining hlen _ pages hfit pg hpg
      have hnil : remaining = [] := List.length_eq_zero.mp (Nat.le_zero.mp hlen)
      subst hnil
      rw [fitLoop] at hfit
      have : pages = [] := (Option.some.inj hfit).symm
      subst this
      simp at hpg
  | succ n ih =>
      intro remaining hlen hb pages hfit pg hpg
      cases remaining with
      | nil =>
          rw [fitLoop] at hfit
          have : pages = [] := (Option.some.inj hfit).symm
          subst this
          simp at hpg
      | cons isl rest =>
          rw [fitLoop] at hfit
          split at hfit
          case isTrue hlt =>
            rcases hrec : fitLoop cage total
                ((isl :: rest).filter (fun j =>
                  ¬ ((runPage cage total (isl :: rest)).map PIsland.oid).contains j.oid))
                with _ | pages2
            · rw [hrec] at hfit
              simp at hfit
            · rw [hrec] at hfit
              rw [Option.map_some'] at hfit
              have hpages : runPage cage total (isl :: rest) :: pages2 = pages :=
                Option.some.inj hfit
              subst hpages
              rcases List.mem_cons.mp hpg with rfl | hmem
              · exact runPage_packed cage total (isl :: rest) hb
              · refine ih _ ?_ ?_ pages2 hrec pg hmem
                · simp only [List.length_cons] at hlt hlen
                  omega
                · intro i hi
                  exact hb i (List.mem_filter.mp hi).1
          case isFalse => exact absurd hfit (by simp)

/-- C4: after `fit_islands` completes, for every page and every pair of
islands placed on that page, the translated axis-aligned boxes
`[pos, pos + bounding_box]` do not overlap (the code's strict AABB test is
false), and every placed island's box lies within
`[0, pageWidth] × [0, pageHeight]`. -/
theorem fit_islands_no_overlap (cage : Vec2) (islands : List PIsland)
    (hb : ∀ i ∈ islands, 0 ≤ i.bbox.1 ∧ 0 ≤ i.bbox.2)
    (pages : List (List PIsland))
    (hres : fit_islands cage islands = .ok (some pages)) :
    ∀ pg ∈ pages, pg.Pairwise (fun p q => overlapPI p q = false) ∧
      ∀ p ∈ pg, 0 ≤ p.pos.1 ∧ 0 ≤ p.pos.2 ∧
        p.pos.1 + p.bbox.1 ≤ cage.1 ∧ p.pos.2 + p.bbox.2 ≤ cage.2 := by
  rw [fit_islands] at hres
  split at hres
  · exact absurd hres (by simp)
  · have hfit : fitLoop cage islands.length
        (List.insertionSort (fun a b : PIsland => len2 b.bbox ≤ len2 a.bbox) islands) =
        some pages := Except.ok.inj hres
    intro pg hpg
    have hb2 : ∀ i ∈ List.insertionSort
        (fun a b : PIsland => len2 b.bbox ≤ len2 a.bbox) islands,
        0 ≤ i.bbox.1 ∧ 0 ≤ i.bbox.2 := by
      intro i hi
      exact hb i ((List.perm_insertionSort _ islands).mem_iff.mp hi)
    have hpk := fitLoop_packed cage islands.length _ _ (le_refl _) hb2 pages hfit pg hpg
    exact ⟨hpk.1, fun p hp => hpk.2 p hp⟩

theorem first_emplace (cage : Vec2) (isl : PIsland)
    (h1 : isl.bbox.1 ≤ cage.1) (h2 : isl.bbox.2 ≤ cage.2) :
    try_emplace cage isl [] [0] [0] [] =
      ([{ isl with pos := (0, 0) }], [0, isl.bbox.1], [0, isl.bbox.2], []) := by
  have hty : tryY cage isl 0 [0] [] [] = (some 0, [], []) := by
    have hc : ¬ ((0:ℚ) + isl.bbox.2 > cage.2 ∨ List.contains [] ((0:ℚ), (0:ℚ))) := by
      simp
      linarith
    rw [tryY, if_neg hc]
    rfl
  have htx : tryX cage isl [0] [0] [] [] = (some (0, 0), [], []) := by
    have hc : ¬ ((0:ℚ) + isl.bbox.1 > cage.1) := by
      simp
      linarith
    rw [tryX, if_neg hc, hty]
  rw [try_emplace, htx]
  simp

theorem packStep_first (cage : Vec2) (total : ℕ) (isl : PIsland)
    (h1 : isl.bbox.1 ≤ cage.1) (h2 : isl.bbox.2 ≤ cage.2) :
    (packStep cage total ⟨[], [0], [0], []⟩ isl).page = [{ isl with pos := (0, 0) }] := by
  rw [packStep]
  rw [show (⟨[], [0], [0], []⟩ : PackState).page = [] from rfl]
  rw [show (⟨[], [0], [0], []⟩ : PackState).sx = [0] from rfl]
  rw [show (⟨[], [0], [0], []⟩ : PackState).sy = [0] from rfl]
  rw [show (⟨[], [0], [0], []⟩ : PackState).occ = [] from rfl]
  rw [first_emplace cage isl h1 h2]
  split <;> rfl

theorem packStep_page_mono (cage : Vec2) (total : ℕ) (st : PackState) (isl : PIsland)
    (p : PIsland) (hp : p ∈ st.page) : p ∈ (packStep cage total st isl).page := by
  rcases htx : tryX cage isl st.sy st.sx st.page st.occ with ⟨r, page2, occ2⟩
  have hspec := tryX_spec cage isl st.sy st.sx st.page st.occ
  rw [htx] at hspec
  have hp2 : p ∈ page2 := hspec.1.mem_iff.mpr hp
  have hpage : (packStep cage total st isl).page =
      (try_emplace cage isl st.page st.sx st.sy st.occ).1 := by
    rw [packStep]
    split <;> rfl
  rw [hpage]
  cases r with
  | none =>
      rw [try_emplace, htx]
      exact hp2
  | some xy =>
      rw [try_emplace, htx]
      exact List.mem_append_left _ hp2

theorem foldl_packStep_page_mono (cage : Vec2) (total : ℕ) :
    ∀ (l : List PIsland) (st : PackState) (p : PIsland), p ∈ st.page →
      p ∈ (l.foldl (packStep cage total) st).page := by
  intro l
  induction l with
  | nil => intro st p hp; simpa using hp
  | cons a t ih =>
      intro st p hp
      rw [List.foldl_cons]
      exact ih (packStep cage total st a) p (packStep_page_mono cage total st a p hp)

theorem runPage_places_head (cage : Vec2) (total : ℕ) (isl : PIsland)
    (rest : List PIsland)
    (h1 : isl.bbox.1 ≤ cage.1) (h2 : isl.bbox.2 ≤ cage.2) :
    ∃ q ∈ runPage cage total (isl :: rest), q.oid = isl.oid := by
  refine ⟨{ isl with pos := (0, 0) }, ?_, rfl⟩
  rw [runPage, List.foldl_cons]
  apply foldl_packStep_page_mono
  rw [packStep_first cage total isl h1 h2]
  exact List.mem_singleton.mpr rfl

theorem fitLoop_total (cage : Vec2) (total : ℕ) :
    ∀ (n : ℕ) (remaining : List PIsland), remaining.length ≤ n →
      (∀ i ∈ remaining, i.bbox.1 ≤ cage.1 ∧ i.bbox.2 ≤ cage.2) →
      ∃ pages, fitLoop cage total remaining = some pages ∧
        ∀ isl ∈ remaining, ∃ pg ∈ pages, ∃ p ∈ pg, p.oid = isl.oid := by
  intro n
  induction n with
  | zero =>
      intro remaining hlen _
      have hnil : remaining = [] := List.length_eq_zero.mp (Nat.le_zero.mp hlen)
      subst hnil
      exact ⟨[], by rw [fitLoop], by simp⟩
  | succ n ih =>
      intro remaining hlen hb
      cases remaining with
      | nil => exact ⟨[], by rw [fitLoop], by simp⟩
      | cons isl rest =>
          obtain ⟨q, hq, hqoid⟩ := runPage_places_head cage total isl rest
            (hb isl (List.mem_cons_self _ _)).1 (hb isl (List.mem_cons_self _ _)).2
          have hcontains : ((runPage cage total (isl :: rest)).map PIsland.oid).contains
              isl.oid = true := by
            simp only [List.contains_eq_any_beq, List.any_eq_true]
            refine ⟨q.oid, List.mem_map.mpr ⟨q, hq, rfl⟩, ?_⟩
            rw [hqoid]
            exact beq_self_eq_true _
          have hlt : ((isl :: rest).filter (fun j =>
              ¬ ((runPage cage total (isl :: rest)).map PIsland.oid).contains j.oid)).length <
              (isl :: rest).length := by
            apply List.length_filter_lt_length_iff_exists.mpr
            exact ⟨isl, List.mem_cons_self _ _, by
              simp only [decide_eq_true_eq, not_not]
              exact hcontains⟩
          obtain ⟨pages2, hrec, hcov⟩ := ih
            ((isl :: rest).filter (fun j =>
              ¬ ((runPage cage total (isl :: rest)).map PIsland.oid).contains j.oid))
            (by simp only [List.length_cons] at hlen hlt ⊢; omega)
            (fun i hi => hb i (List.mem_filter.mp hi).1)
          refine ⟨runPage cage total (isl :: rest) :: pages2, ?_, ?_⟩
          · rw [fitLoop, dif_pos hlt, hrec, Option.map_some']
          · intro j hj
            by_cases hjp : ((runPage cage total (isl :: rest)).map PIsland.oid).contains
                j.oid = true
            · have hex : ∃ p ∈ runPage cage total (isl :: rest), p.oid = j.oid := by
                simp only [List.contains_eq_any_beq, List.any_eq_true] at hjp
                obtain ⟨a, ha, hbeq⟩ := hjp
                obtain ⟨p, hp, rfl⟩ := List.mem_map.mp ha
                exact ⟨p, hp, (eq_of_beq hbeq).symm⟩
              obtain ⟨p, hp, hpoid⟩ := hex
              exact ⟨runPage cage total (isl :: rest), List.mem_cons_self _ _, p, hp, hpoid⟩
            · have hj2 : j ∈ (isl :: rest).filter (fun j =>
                  ¬ ((runPage cage total (isl :: rest)).map PIsland.oid).contains j.oid) := by
                rw [List.mem_filter]
                exact ⟨hj, by simp only [decide_eq_true_eq]; exact hjp⟩
              obtain ⟨pg, hpg, hex⟩ := hcov j hj2
              exact ⟨pg, List.mem_cons_of_mem _ hpg, hex⟩

/-- C9: `fit_islands` raises the fatal `PmtError` (modelled `.error ()`),
before placing any island, if and only if some single island's bounding box
exceeds the page size in width or height; otherwise it places every island
(by object identity) on some page. -/
theorem fit_islands_precheck_iff_and_total (cage : Vec2) (islands : List PIsland) :
    (fit_islands cage islands = .error () ↔
      ∃ i ∈ islands, i.bbox.1 > cage.1 ∨ i.bbox.2 > cage.2) ∧
    ((¬ ∃ i ∈ islands, i.bbox.1 > cage.1 ∨ i.bbox.2 > cage.2) →
      ∃ pages, fit_islands cage islands = .ok (some pages) ∧
        ∀ isl ∈ islands, ∃ pg ∈ pages, ∃ p ∈ pg, p.oid = isl.oid) := by
  have hiff : islands.any (fun i => decide (i.bbox.1 > cage.1 ∨ i.bbox.2 > cage.2)) = true ↔
      ∃ i ∈ islands, i.bbox.1 > cage.1 ∨ i.bbox.2 > cage.2 := by
    simp [List.any_eq_true]
  constructor
  · by_cases hc : islands.any (fun i => decide (i.bbox.1 > cage.1 ∨ i.bbox.2 > cage.2)) = true
    · rw [fit_islands, if_pos hc]
      simp [hiff.mp hc]
    · rw [fit_islands, if_neg hc]
      constructor
      · intro hbad
        exact absurd hbad (by simp)
      · intro hex
        exact (hc (hiff.mpr hex)).elim
  · intro hno
    have hc : ¬ islands.any (fun i => decide (i.bbox.1 > cage.1 ∨ i.bbox.2 > cage.2)) = true :=
      fun h => hno (hiff.mp h)
    rw [fit_islands, if_neg hc]
    have hbounds : ∀ i ∈ List.insertionSort
        (fun a b : PIsland => len2 b.bbox ≤ len2 a.bbox) islands,
        i.bbox.1 ≤ cage.1 ∧ i.bbox.2 ≤ cage.2 := by
      intro i hi
      have hmem : i ∈ islands := (List.perm_insertionSort _ islands).mem_iff.mp hi
      push_neg at hno
      exact hno i hmem
    obtain ⟨pages, hfit, hcov⟩ := fitLoop_total cage islands.length _ _ (le_refl _) hbounds
    refine ⟨pages, by rw [hfit], ?_⟩
    intro isl hisl
    exact hcov isl ((List.perm_insertionSort _ islands).mem_iff.mpr hisl)

/-- C9 witness: a 2×1 island on a 1×1 page triggers the fatal error; a 1×1
island on a 1×1 page does not. -/
theorem fit_islands_precheck_witness :
    fit_islands (1, 1) [⟨0, (2, 1), (0, 0)⟩] = .error () ∧
    fit_islands (1, 1) [⟨0, (1, 1), (0, 0)⟩] ≠ .error () := by
  constructor
  · refine (fit_islands_precheck_iff_and_total (1, 1) [⟨0, (2, 1), (0, 0)⟩]).1.mpr ?_
    refine ⟨⟨0, (2, 1), (0, 0)⟩, List.mem_singleton.mpr rfl, Or.inl ?_⟩
    norm_num
  · have hno : ¬ ∃ i ∈ [(⟨0, (1, 1), (0, 0)⟩ : PIsland)],
        i.bbox.1 > (1, 1).1 ∨ i.bbox.2 > (1, 1).2 := by
      rintro ⟨i, hi, hbad⟩
      rw [List.mem_singleton.mp hi] at hbad
      rcases hbad with h | h <;> norm_num at h
    obtain ⟨pages, hok, _⟩ :=
      (fit_islands_precheck_iff_and_total (1, 1) [⟨0, (1, 1), (0, 0)⟩]).2 hno
    rw [hok]
    simp

/-- C4 witness: a single zero-size island on a 1×1 page is packed into one
page satisfying the no-overlap and in-bounds invariants. -/
theorem fit_islands_no_overlap_witness :
    (∀ i ∈ [(⟨0, (0, 0), (0, 0)⟩ : PIsland)], 0 ≤ i.bbox.1 ∧ 0 ≤ i.bbox.2) ∧
    ∀ pg ∈ [[(⟨0, (0, 0), (0, 0)⟩ : PIsland)]],
      pg.Pairwise (fun p q => overlapPI p q = false) ∧
      ∀ p ∈ pg, 0 ≤ p.pos.1 ∧ 0 ≤ p.pos.2 ∧
        p.pos.1 + p.bbox.1 ≤ (1 : ℚ) ∧ p.pos.2 + p.bbox.2 ≤ (1 : ℚ) := by
  have hres : fit_islands (1, 1) [⟨0, (0, 0), (0, 0)⟩] =
      .ok (some [[⟨0, (0, 0), (0, 0)⟩]]) := by
    norm_num [fit_islands, List.insertionSort, List.orderedInsert, fitLoop, runPage,
      packStep, try_emplace, tryX, tryY, findObstacle, drop_portion]
  exact ⟨by simp, fit_islands_no_overlap (1, 1) [⟨0, (0, 0), (0, 0)⟩] (by simp)
    [[⟨0, (0, 0), (0, 0)⟩]] hres⟩

/-! ### C1: rejected joins are side-effect free -/

/-- C1: whenever `join_island` rejects the attempt (returns `False`:
same-island pair, size-limit failure, fan-validity failure, or detected
intersection), the entire shared state — in particular the vertex maps,
edge maps, face maps and boundary lists of both input islands — is
unchanged after the call. -/
theorem join_island_rejection_unchanged (topo : Topo) (hullFn : List RVec2 → List ℕ)
    (st : MState) (la lb : ℕ) (sizeLimit : Option Vec2) (epsilon : ℝ) (st2 : MState)
    (h : join_island topo hullFn st la lb sizeLimit epsilon = .ok (none, st2)) :
    st2 = st := by
  have phase3 : ∀ (iaId ibId : ℕ) (flipped : Bool) (ph : List (UVV × UVV))
      (imm : Bool) (ml : List ℕ) (mp : List (ℕ × ℕ)) (nv : ℕ),
      joinPhase3 topo st iaId ibId flipped ph imm ml mp nv = .ok (none, st2) →
      st2 = st := by
    intro iaId ibId flipped ph imm ml mp nv h3
    simp only [joinPhase3] at h3
    split at h3
    · exact (congrArg Prod.snd (Except.ok.inj h3)).symm
    · split at h3
      · exact Except.noConfusion h3
      · exact (congrArg Prod.snd (Except.ok.inj h3)).symm
      · exact Option.noConfusion (congrArg Prod.fst (Except.ok.inj h3))
  have phase2 : ∀ (la2 lb2 iaId ibId : ℕ) (flipped : Bool) (ph : List (UVV × UVV))
      (nv : ℕ),
      joinPhase2 topo st la2 lb2 iaId ibId flipped ph nv epsilon = .ok (none, st2) →
      st2 = st := by
    intro la2 lb2 iaId ibId flipped ph nv h2
    simp only [joinPhase2] at h2
    repeat' split at h2
    all_goals first
      | exact Except.noConfusion h2
      | exact phase3 _ _ _ _ _ _ _ _ h2
  simp only [join_island] at h
  repeat' split at h
  all_goals first
    | exact (congrArg Prod.snd (Except.ok.inj h)).symm
    | exact Except.noConfusion h
    | exact phase2 _ _ _ _ _ _ _ h

/-- C1 witness: a same-island pair is rejected with the state returned
untouched. -/
theorem join_island_rejection_unchanged_witness :
    join_island wTopo hullHead wState 7 8 none (1 / 1000000) = .ok (none, wState) ∧
    wState = wState := by
  have hsame : (uvfaceOf wState (uvedgeOf wState 7).uvface).island =
      (uvfaceOf wState (uvedgeOf wState 8).uvface).island := by
    simp [wState, uvfaceOf, uvedgeOf, dgetD, dget]
  have h : join_island wTopo hullHead wState 7 8 none (1 / 1000000) = .ok (none, wState) := by
    simp only [join_island]
    rw [if_pos hsame]
  exact ⟨h, join_island_rejection_unchanged wTopo hullHead wState 7 8 none
    (1 / 1000000) wState h⟩

/-- C10: the `pairs` helper does NOT yield `(x, x)` on the one-element sequence
`[x]`: the trailing `yield this, first` raises `NameError` (the loop variable
`this` was never assigned), modelled as `none`. -/
theorem pairs_singleton_counterexample : pairs [(0 : ℕ)] = none := rfl

/-- C10 (amended): for every sequence of `n ≥ 2` elements, `pairs` yields
exactly `n` consecutive pairs, the last being (last element, first element);
a one-element sequence makes it raise `NameError` instead of yielding
`(x, x)`. -/
theorem pairs_wraparound_amended {α : Type _} (l : List α) (h : 2 ≤ l.length) :
    ∃ (hne : l ≠ []) (ps : List (α × α)),
      pairs l = some ps ∧
      ps.length = l.length ∧
      ps.getLast? = some (l.getLast hne, l.head hne) ∧
      (∀ i : ℕ, i + 1 < l.length →
        ps.get? i = (l.get? i).bind (fun a => (l.get? (i+1)).map (fun b => (a, b)))) ∧
      (∀ x : α, pairs [x] = none) := by
  obtain ⟨hne, heq⟩ := pairs_eq_of_two_le l h
  refine ⟨hne, _, heq, ?_, ?_, ?_, fun x => rfl⟩
  · have hz : (l.zip l.tail).length = l.length - 1 := by
      simp [List.length_zip, List.length_tail]
    simp [hz]
    omega
  · simp
  · intro i hi
    have hzl : (l.zip l.tail).length = l.length - 1 := by
      simp [List.length_zip, List.length_tail]
    have hilt : i < (l.zip l.tail).length := by omega
    have h1 : i < l.length := by omega
    have h2 : i < l.tail.length := by simp [List.length_tail]; omega
    rw [List.get?_append hilt, List.get?_eq_get hilt, List.get?_eq_get h1,
      List.get?_eq_get (show i + 1 < l.length from hi)]
    simp [List.get_zip, List.getElem_tail]

/-- C10 witness: `pairs [10, 20, 30]` yields exactly the three pairs
`(10,20), (20,30), (30,10)`. -/
theorem pairs_wraparound_witness :
    2 ≤ [(10 : ℕ), 20, 30].length ∧
    ∃ (hne : [(10 : ℕ), 20, 30] ≠ []) (ps : List (ℕ × ℕ)),
      pairs [(10 : ℕ), 20, 30] = some ps ∧
      ps.length = 3 ∧
      ps.getLast? = some ((30 : ℕ), 10) ∧
      (∀ i : ℕ, i + 1 < 3 →
        ps.get? i = (([(10:ℕ),20,30].get? i).bind
          (fun a => ([(10:ℕ),20,30].get? (i+1)).map (fun b => (a, b))))) := by
  refine ⟨by decide, ?_⟩
  obtain ⟨hne, ps, h1, h2, h3, h4, _⟩ :=
    pairs_wraparound_amended [(10 : ℕ), 20, 30] (by decide)
  exact ⟨hne, ps, h1, h2, by simpa using h3, by simpa using h4⟩

section GenerateCutsTheorems

open scoped Classical

/-- **C8.** `generate_cuts` considers exactly the mesh edges that are not
force-cut and have main faces; with at least one candidate it recomputes
their priorities from the priority effect and the average candidate
length, sorts them stably in ascending priority order, and runs the join
loop over exactly that sorted order; a zero-length edge is skipped
leaving the state unchanged; and on every successful join the absorbed
island is removed from the working set. -/
theorem generate_cuts_behaviour (topo : Topo) (hullFn : List RVec2 → List ℕ)
    (pageSize : Option Vec2) (pe : PriorityEffect) (st : MState)
    (hnodup : (st.meshEdges.map Prod.fst).Nodup)
    (hne : joinCandidates st ≠ []) :
    (∀ k, k ∈ joinCandidates st ↔
      ∃ e, dget st.meshEdges k = some e ∧ e.forceCut = false ∧
        e.mainFaces.isSome = true) ∧
    (sortedCandidates (reprioritized pe (averageLen st (joinCandidates st)) st
        (joinCandidates st)) (joinCandidates st)).Perm (joinCandidates st) ∧
    (sortedCandidates (reprioritized pe (averageLen st (joinCandidates st)) st
        (joinCandidates st)) (joinCandidates st)).Pairwise (fun a b =>
      (dgetD (reprioritized pe (averageLen st (joinCandidates st)) st
        (joinCandidates st)).meshEdges a default).priority ≤
      (dgetD (reprioritized pe (averageLen st (joinCandidates st)) st
        (joinCandidates st)).meshEdges b default).priority) ∧
    generate_cuts_core topo hullFn pageSize pe st =
      (sortedCandidates (reprioritized pe (averageLen st (joinCandidates st)) st
        (joinCandidates st)) (joinCandidates st)).foldlM
        (cutStep topo hullFn pageSize)
        (reprioritized pe (averageLen st (joinCandidates st)) st
          (joinCandidates st)) ∧
    (∀ s k, (dgetD s.meshEdges k default).vector = 0 →
      cutStep topo hullFn pageSize s k = .ok s) ∧
    (∀ s k la lb ib s2,
      (dgetD s.meshEdges k default).vector ≠ 0 →
      (dgetD s.meshEdges k default).mainFaces = some (la, lb) →
      join_island topo hullFn s la lb pageSize (1 / 1000000) = .ok (some ib, s2) →
      cutStep topo hullFn pageSize s k =
        .ok { s2 with islands := derase s2.islands ib } ∧
      dget (derase s2.islands ib) ib = none) := by
  refine ⟨?_, ?_, ?_, ?_, ?_, ?_⟩
  · intro k
    constructor
    · intro hk
      simp only [joinCandidates, List.mem_map] at hk
      obtain ⟨ke, hmem, hfst⟩ := hk
      rcases ke with ⟨k1, e⟩
      rw [List.mem_filter] at hmem
      obtain ⟨hmem, hp⟩ := hmem
      simp only [Bool.and_eq_true, Bool.not_eq_true'] at hp
      subst hfst
      exact ⟨e, dget_of_mem_nodup _ _ _ hnodup hmem, hp.1, hp.2⟩
    · rintro ⟨e, hget, hfc, hmf⟩
      have hmem : (k, e) ∈ st.meshEdges := mem_of_dget _ _ _ hget
      simp only [joinCandidates, List.mem_map]
      exact ⟨(k, e), List.mem_filter.mpr ⟨hmem, by simp [hfc, hmf]⟩, rfl⟩
  · simpa [sortedCandidates] using List.perm_insertionSort _ (joinCandidates st)
  · haveI : IsTotal ℕ (fun a b : ℕ =>
        (dgetD (reprioritized pe (averageLen st (joinCandidates st)) st
          (joinCandidates st)).meshEdges a default).priority ≤
        (dgetD (reprioritized pe (averageLen st (joinCandidates st)) st
          (joinCandidates st)).meshEdges b default).priority) :=
      ⟨fun a b => le_total _ _⟩
    haveI : IsTrans ℕ (fun a b : ℕ =>
        (dgetD (reprioritized pe (averageLen st (joinCandidates st)) st
          (joinCandidates st)).meshEdges a default).priority ≤
        (dgetD (reprioritized pe (averageLen st (joinCandidates st)) st
          (joinCandidates st)).meshEdges b default).priority) :=
      ⟨fun a b c => le_trans⟩
    simpa [sortedCandidates, List.Sorted] using
      List.sorted_insertionSort (fun a b : ℕ =>
        (dgetD (reprioritized pe (averageLen st (joinCandidates st)) st
          (joinCandidates st)).meshEdges a default).priority ≤
        (dgetD (reprioritized pe (averageLen st (joinCandidates st)) st
          (joinCandidates st)).meshEdges b default).priority)
        (joinCandidates st)
  · simp only [generate_cuts_core]
    rw [if_neg hne]
  · intro s k h0
    simp only [cutStep]
    rw [if_pos h0]
  · intro s k la lb ib s2 hnz hmf hj
    refine ⟨?_, dget_derase _ _⟩
    simp only [cutStep, hmf, hj]
    rw [if_neg hnz]

end GenerateCutsTheorems

/-- C8 witness: on the concrete state `cState` (a single candidate edge,
key 0, not force-cut, with main faces) the hypotheses hold and the
behaviour theorem applies with unit priority weights, no page size and
the trivial topology. -/
theorem generate_cuts_behaviour_witness :
    ((cState.meshEdges.map Prod.fst).Nodup ∧ joinCandidates cState ≠ []) ∧
    ((∀ k, k ∈ joinCandidates cState ↔
      ∃ e, dget cState.meshEdges k = some e ∧ e.forceCut = false ∧
        e.mainFaces.isSome = true) ∧
    (sortedCandidates (reprioritized ⟨1, 1, 1⟩
        (averageLen cState (joinCandidates cState)) cState
        (joinCandidates cState)) (joinCandidates cState)).Perm
      (joinCandidates cState) ∧
    (sortedCandidates (reprioritized ⟨1, 1, 1⟩
        (averageLen cState (joinCandidates cState)) cState
        (joinCandidates cState)) (joinCandidates cState)).Pairwise (fun a b =>
      (dgetD (reprioritized ⟨1, 1, 1⟩
        (averageLen cState (joinCandidates cState)) cState
        (joinCandidates cState)).meshEdges a default).priority ≤
      (dgetD (reprioritized ⟨1, 1, 1⟩
        (averageLen cState (joinCandidates cState)) cState
        (joinCandidates cState)).meshEdges b default).priority) ∧
    generate_cuts_core wTopo hullHead none ⟨1, 1, 1⟩ cState =
      (sortedCandidates (reprioritized ⟨1, 1, 1⟩
        (averageLen cState (joinCandidates cState)) cState
        (joinCandidates cState)) (joinCandidates cState)).foldlM
        (cutStep wTopo hullHead none)
        (reprioritized ⟨1, 1, 1⟩ (averageLen cState (joinCandidates cState))
          cState (joinCandidates cState)) ∧
    (∀ s k, (dgetD s.meshEdges k default).vector = 0 →
      cutStep wTopo hullHead none s k = .ok s) ∧
    (∀ s k la lb ib s2,
      (dgetD s.meshEdges k default).vector ≠ 0 →
      (dgetD s.meshEdges k default).mainFaces = some (la, lb) →
      join_island wTopo hullHead s la lb none (1 / 1000000) = .ok (some ib, s2) →
      cutStep wTopo hullHead none s k =
        .ok { s2 with islands := derase s2.islands ib } ∧
      dget (derase s2.islands ib) ib = none)) :=
  ⟨⟨by simp [cState, wState], by simp [joinCandidates, cState, wState]⟩,
   generate_cuts_behaviour wTopo hullHead none ⟨1, 1, 1⟩ cState
     (by simp [cState, wState]) (by simp [joinCandidates, cState, wState])⟩

end PMT
